import Mathlib

/-!
Verification of the QOI (early revision) codec in `src/lib.rs` of qoi-rs.

The Rust source is shallowly embedded: byte sinks/sources become `List Nat`
(every element intended `< 256`), `u8` arithmetic is modelled modulo 256
(the release-mode wrapping semantics the decoder relies on), `i32`
arithmetic becomes `Int` (exact for these ranges), panics and I/O failures
become `Option`/`Except` error results, and the encoder's seek-back header
fixup becomes an explicit overwrite of bytes 8..12 of the stream.
-/

set_option maxHeartbeats 1000000
set_option maxRecDepth 16000

namespace Qoi

/-- `type Rgba = [u8; 4]` — a pixel, four 8-bit channels. -/
structure Rgba where
  r : Nat
  g : Nat
  b : Nat
  a : Nat
deriving DecidableEq

/-- `const DEFAULT_PREV_PIXEL: Rgba = [0, 0, 0, 0xFF]` -/
def DEFAULT_PREV_PIXEL : Rgba := ⟨0, 0, 0, 0xFF⟩

/-- The all-zero pixel filling the fresh color cache (`[[0; 4]; COLOR_LUT_SIZE]`). -/
def zeroPixel : Rgba := ⟨0, 0, 0, 0⟩

def MAX_RUN_LENGTH : Nat := 0x2020
def MAX_RUN_8_LENGTH : Nat := 33
/-- `const MAGIC: &[u8; 4] = b"qoif"` as bytes. -/
def MAGIC : List Nat := [0x71, 0x6F, 0x69, 0x66]
def QOI_PADDING : Nat := 4
def QOI_INDEX : Nat := 0x00
def QOI_RUN_8 : Nat := 0x40
def QOI_RUN_16 : Nat := 0x60
def QOI_DIFF_8 : Nat := 0x80
def QOI_DIFF_16 : Nat := 0xC0
def QOI_DIFF_24 : Nat := 0xE0
def QOI_COLOR : Nat := 0xF0
def QOI_MASK_2 : Nat := 0xC0
def QOI_MASK_3 : Nat := 0xE0
def QOI_MASK_4 : Nat := 0xF0

/-- `pub enum ChannelCount { Rgb = 3, Rgba = 4 }` -/
inductive ChannelCount where
  | rgb
  | rgba
deriving DecidableEq

/-- The `usize` value of a `ChannelCount` (`channels as usize`). -/
def ChannelCount.toNat : ChannelCount → Nat
  | .rgb => 3
  | .rgba => 4

/-- `fn color_hash([r, g, b, a]: Rgba) -> u8 { r ^ g ^ b ^ a }` -/
def color_hash (p : Rgba) : Nat := p.r ^^^ p.g ^^^ p.b ^^^ p.a

/-- `fn subtract_pixels(x, y) -> [i32; 4]` — channelwise signed difference. -/
def subtract_pixels (x y : Rgba) : Int × Int × Int × Int :=
  ((x.r : Int) - y.r, (x.g : Int) - y.g, (x.b : Int) - y.b, (x.a : Int) - y.a)

/-- Wrapping `u8` addition (`+=` on `u8` channels, modulo 256). -/
def u8add (x y : Nat) : Nat := (x + y) % 256

/-- Wrapping `u8` subtraction: `x - y` on `u8` (two's complement modulo 256). -/
def u8sub (x y : Nat) : Nat := (x % 256 + 256 - y % 256) % 256

/-- Pointwise update of a 64-entry color cache (`index[i] = px`). -/
def updCache (c : Nat → Rgba) (i : Nat) (v : Rgba) : Nat → Rgba :=
  fun j => if j = i then v else c j

/-- The fresh all-zero cache `[[0; 4]; COLOR_LUT_SIZE]`. -/
def zeroCache : Nat → Rgba := fun _ => zeroPixel

/-- `u16::to_le_bytes`. -/
def le16 (n : Nat) : List Nat := [n % 256, n / 256 % 256]

/-- `u32::to_le_bytes` (composed with the `as u32` truncation of a larger value). -/
def le32 (n : Nat) : List Nat :=
  [n % 256, n / 256 % 256, n / 65536 % 256, n / 16777216 % 256]

/-- `u32::from_le_bytes` on the first four bytes of a list. -/
def readLe32 (l : List Nat) : Nat :=
  l.getD 0 0 + 256 * l.getD 1 0 + 65536 * l.getD 2 0 + 16777216 * l.getD 3 0

/-! ## Encoder -/

/-- `data.chunks_exact(channels)` + `px[..channels].copy_from_slice(pixel_data)`:
the successive values of the encoder's `px` variable.  For `Rgb` input only the
first three channels are overwritten, so the alpha of the previous `px` value
is carried along (it starts at `DEFAULT_PREV_PIXEL`'s 255 and is never
changed).  A trailing partial chunk is dropped, as `chunks_exact` does. -/
def bytesToPixels : ChannelCount → Rgba → List Nat → List Rgba
  | .rgba, _, r :: g :: b :: a :: rest => ⟨r, g, b, a⟩ :: bytesToPixels .rgba ⟨r, g, b, a⟩ rest
  | .rgb, px, r :: g :: b :: rest => ⟨r, g, b, px.a⟩ :: bytesToPixels .rgb ⟨r, g, b, px.a⟩ rest
  | _, _, _ => []

/-- The one- or two-byte run-length flush the encoder emits for a pending run
(`run < MAX_RUN_8_LENGTH` gives `QOI_RUN_8 | (run-1)`, otherwise two
`QOI_RUN_16` bytes carry `run - 33`). -/
def run_flush_bytes (run : Nat) : List Nat :=
  if run < MAX_RUN_8_LENGTH then
    [QOI_RUN_8 ||| (run - 1)]
  else
    [QOI_RUN_16 ||| ((run - MAX_RUN_8_LENGTH) >>> 8), (run - MAX_RUN_8_LENGTH) % 256]

/-- `let gate = |v: i32, x: u8| if v != 0 { x } else { 0 };` -/
def gate (v : Int) (x : Nat) : Nat := if v ≠ 0 then x else 0

/-- The three `QOI_DIFF_24` bytes.  All biased deltas lie in `[0, 31]` in this
branch, so `Int.toNat` agrees with the `i32` values; `% 256` is the `as u8`
truncation of each packed expression. -/
def diff24Bytes (vr vg vb va : Int) : List Nat :=
  [QOI_DIFF_24 ||| (((vr + 15).toNat >>> 1) % 256),
   (((vr + 15).toNat <<< 7) ||| ((vg + 15).toNat <<< 2) ||| ((vb + 15).toNat >>> 3)) % 256,
   (((vb + 15).toNat <<< 5) ||| (va + 15).toNat) % 256]

/-- The bytes the encoder emits for a cache-missing pixel `px` with previous
pixel `px_prev`: one of the `QOI_DIFF_*` encodings when every delta lies in
`(-16, 17)`, otherwise a `QOI_COLOR` bitmap followed by the raw bytes of the
changed channels.  Branch guards make every `Int.toNat`/`% 256` below agree
with the source's `i32`-then-`as u8` arithmetic. -/
def pixel_bytes (px px_prev : Rgba) : List Nat :=
  let d := subtract_pixels px px_prev
  let vr := d.1
  let vg := d.2.1
  let vb := d.2.2.1
  let va := d.2.2.2
  if (-16 < vr ∧ vr < 17) ∧ (-16 < vg ∧ vg < 17) ∧ (-16 < vb ∧ vb < 17) ∧ (-16 < va ∧ va < 17) then
    if va = 0 ∧ -2 < vr ∧ vr < 3 ∧ -2 < vg ∧ vg < 3 ∧ -2 < vb ∧ vb < 3 then
      [QOI_DIFF_8 ||| ((((vr + 1).toNat <<< 4) ||| ((vg + 1).toNat <<< 2) ||| (vb + 1).toNat) % 256)]
    else if va = 0 ∧ -16 < vr ∧ vr < 17 ∧ -8 < vg ∧ vg < 9 ∧ -8 < vb ∧ vb < 9 then
      [QOI_DIFF_16 ||| ((vr + 15).toNat % 256),
       (((vg + 7).toNat <<< 4) ||| (vb + 7).toNat) % 256]
    else
      diff24Bytes vr vg vb va
  else
    [QOI_COLOR ||| gate vr 8 ||| gate vg 4 ||| gate vb 2 ||| gate va 1]
      ++ (if vr ≠ 0 then [px.r] else [])
      ++ (if vg ≠ 0 then [px.g] else [])
      ++ (if vb ≠ 0 then [px.b] else [])
      ++ (if va ≠ 0 then [px.a] else [])

/-- The encoder's per-pixel loop (`for (pixel_idx, pixel_data) in …`), already
phrased over the pixel values of `bytesToPixels`.  Returns the emitted
instruction bytes together with the final color cache.  State: pending `run`,
previous pixel `px_prev`, cache `index`; `idx` is `pixel_idx` and `total` is
the `total_pixels` computed by `verify_and_calculate_dims`. -/
def encLoop (total : Nat) : Nat → Nat → Rgba → (Nat → Rgba) → List Rgba → List Nat × (Nat → Rgba)
  | _, _, _, cache, [] => ([], cache)
  | idx, run, px_prev, cache, px :: rest =>
    -- `if pixel_matches_last { run += 1; }`
    let run1 := if px = px_prev then run + 1 else run
    -- `if run > 0 && (run == MAX_RUN_LENGTH || !pixel_matches_last || pixel_idx + 1 == total_pixels)`
    let rb := if 0 < run1 ∧ (run1 = MAX_RUN_LENGTH ∨ ¬px = px_prev ∨ idx + 1 = total) then
      run_flush_bytes run1 else []
    let run2 := if 0 < run1 ∧ (run1 = MAX_RUN_LENGTH ∨ ¬px = px_prev ∨ idx + 1 = total) then
      0 else run1
    if px = px_prev then
      let res := encLoop total (idx + 1) run2 px cache rest
      (rb ++ res.1, res.2)
    else
      let index_pos := color_hash px % 64
      if cache index_pos = px then
        let res := encLoop total (idx + 1) run2 px cache rest
        (rb ++ [QOI_INDEX ||| index_pos] ++ res.1, res.2)
      else
        let res := encLoop total (idx + 1) run2 px (updCache cache index_pos px) rest
        (rb ++ pixel_bytes px px_prev ++ res.1, res.2)

/-- `verify_and_calculate_dims` — `None` models the panics (`assert!` failures,
`% 0`, and the failing `try_into::<u16>` calls); otherwise
`(width, height, total_pixels)`.  Note the source's `total_pixels = data.len() / 3`
regardless of the channel count. -/
def verify_and_calculate_dims (len width : Nat) (channels : ChannelCount) : Option (Nat × Nat × Nat) :=
  if len % channels.toNat ≠ 0 then none
  else if width = 0 then none          -- `data.len() % width` panics on a zero divisor
  else if len % width ≠ 0 then none
  else
    let height := len / (width * channels.toNat)
    if 65535 < height then none        -- `height.try_into().expect("Image height > 2^16")`
    else if 65535 < width then none    -- `width.try_into().expect("Image width > 2^16")`
    else some (width, height, len / 3)

/-- `encode_header`: magic, width (LE), height (LE), and a zero placeholder for
the size field; the returned seek offset of the placeholder is always 8. -/
def encode_header (width height : Nat) : List Nat :=
  MAGIC ++ le16 width ++ le16 height ++ le32 0

/-- `encode_size`: the seek-back that overwrites 4 bytes at `offset` with the
little-endian size. -/
def encode_size (stream : List Nat) (size offset : Nat) : List Nat :=
  stream.take offset ++ le32 size ++ stream.drop (offset + 4)

/-- `pub fn encode` over a list-of-bytes sink.  `none` models the
`verify_and_calculate_dims` panics; writes to the sink cannot fail. -/
def encode (data : List Nat) (width : Nat) (channels : ChannelCount) : Option (List Nat) :=
  match verify_and_calculate_dims data.length width channels with
  | none => none
  | some (w, h, total_pixels) =>
    let body := (encLoop total_pixels 0 0 DEFAULT_PREV_PIXEL zeroCache
      (bytesToPixels channels DEFAULT_PREV_PIXEL data)).1
    let image_data := body ++ List.replicate QOI_PADDING 0
    some (encode_size (encode_header w h ++ image_data) image_data.length 8)

/-! ## Decoder -/

/-- Decoder failures: `ioError` models `Err` results from the byte source
(end of input), `formatErr` models the `assert!`/`assert_eq!` panics. -/
inductive DecodeErr where
  | ioError
  | formatErr
deriving DecidableEq

/-- `read_byte`: one byte from the source, or an I/O error at end of input. -/
def readByte : List Nat → Except DecodeErr (Nat × List Nat)
  | [] => .error .ioError
  | b :: bs => .ok (b, bs)

/-- `fn decode_header` — magic check, width/height (LE, both asserted nonzero),
then the 4-byte compressed-size field, returning the unread remainder. -/
def decode_header (source : List Nat) : Except DecodeErr ((Nat × Nat × Nat) × List Nat) :=
  match source with
  | m0 :: m1 :: m2 :: m3 :: rest1 =>
    if [m0, m1, m2, m3] ≠ MAGIC then .error .formatErr
    else
      match rest1 with
      | w0 :: w1 :: h0 :: h1 :: rest2 =>
        let width := w0 + 256 * w1
        let height := h0 + 256 * h1
        if width = 0 then .error .formatErr
        else if height = 0 then .error .formatErr
        else
          match rest2 with
          | s0 :: s1 :: s2 :: s3 :: rest3 =>
            .ok ((width, height, s0 + 256 * s1 + 65536 * s2 + 16777216 * s3), rest3)
          | _ => .error .ioError
      | _ => .error .ioError
  | _ => .error .ioError

/-- Decoder state: pending `run`, current pixel `px`, color cache `index`. -/
structure DecSt where
  run : Nat
  px : Rgba
  cache : Nat → Rgba

/-- The decoder's tag dispatch: from the first instruction byte `b1`, its state
and the rest of the source, compute the new `run`, the new `px` and the unread
remainder.  The branches and their order are exactly the source's `if` chain;
the final catch-all mirrors the source's missing `else` (no branch taken, `px`
unchanged) and is dead because the seven mask tests are total. -/
def dispatch (st : DecSt) (b1 : Nat) (bs : List Nat) : Except DecodeErr (Nat × Rgba × List Nat) :=
  if b1 &&& QOI_MASK_2 = QOI_INDEX then
    .ok (st.run, st.cache (b1 ^^^ QOI_INDEX), bs)
  else if b1 &&& QOI_MASK_3 = QOI_RUN_8 then
    .ok (b1 &&& 0x1F, st.px, bs)
  else if b1 &&& QOI_MASK_3 = QOI_RUN_16 then
    match bs with
    | [] => .error .ioError
    | b2 :: bs' => .ok ((((b1 &&& 0x1F) <<< 8) ||| b2) + 32, st.px, bs')
  else if b1 &&& QOI_MASK_2 = QOI_DIFF_8 then
    .ok (st.run, ⟨u8add st.px.r (u8sub ((b1 >>> 4) &&& 0x03) 1),
                  u8add st.px.g (u8sub ((b1 >>> 2) &&& 0x03) 1),
                  u8add st.px.b (u8sub (b1 &&& 0x03) 1),
                  st.px.a⟩, bs)
  else if b1 &&& QOI_MASK_3 = QOI_DIFF_16 then
    match bs with
    | [] => .error .ioError
    | b2 :: bs' => .ok (st.run, ⟨u8add st.px.r (u8sub (b1 &&& 0x1F) 15),
                                 u8add st.px.g (u8sub (b2 >>> 4) 7),
                                 u8add st.px.b (u8sub (b2 &&& 0x0F) 7),
                                 st.px.a⟩, bs')
  else if b1 &&& QOI_MASK_4 = QOI_DIFF_24 then
    match bs with
    | b2 :: b3 :: bs' =>
      .ok (st.run, ⟨u8add st.px.r (u8sub (((b1 &&& 0x0F) <<< 1) ||| (b2 >>> 7)) 15),
                    u8add st.px.g (u8sub ((b2 &&& 0x7C) >>> 2) 15),
                    u8add st.px.b (u8sub (((b2 &&& 0x03) <<< 3) ||| ((b3 &&& 0xE0) >>> 5)) 15),
                    u8add st.px.a (u8sub (b3 &&& 0x1F) 15)⟩, bs')
    | _ => .error .ioError
  else if b1 &&& QOI_MASK_4 = QOI_COLOR then
    (do
      let pr ← if b1 &&& 8 ≠ 0 then readByte bs else pure (st.px.r, bs)
      let pg ← if b1 &&& 4 ≠ 0 then readByte pr.2 else pure (st.px.g, pr.2)
      let pb ← if b1 &&& 2 ≠ 0 then readByte pg.2 else pure (st.px.b, pg.2)
      let pa ← if b1 &&& 1 ≠ 0 then readByte pb.2 else pure (st.px.a, pb.2)
      pure (st.run, (⟨pr.1, pg.1, pb.1, pa.1⟩ : Rgba), pa.2))
  else
    .ok (st.run, st.px, bs)

/-- The bytes `out_buf.extend_from_slice` appends for one emitted pixel. -/
def emit : ChannelCount → Rgba → List Nat
  | .rgba, p => [p.r, p.g, p.b, p.a]
  | .rgb, p => [p.r, p.g, p.b]

/-- The decoder's `while out_buf.len() < uncompressed_len` loop.  `fuel` is a
structural bound on the number of iterations: each iteration appends
`channels.toNat ≥ 3` bytes, so `uncompressed_len + 1` fuel always suffices
(fuel exhaustion, an artifact of the embedding, is reported as an error and
never happens when the loop is entered with that much fuel).  After a non-run
iteration the cache is updated at `color_hash(px) % 64` — the source does this
after *every* dispatched instruction, `QOI_INDEX` and the runs included. -/
def decodeLoop (channels : ChannelCount) :
    Nat → Nat → List Nat → DecSt → List Nat → Except DecodeErr (List Nat × DecSt × List Nat)
  | 0, _, _, _, _ => .error .ioError
  | fuel + 1, need, bytes, st, out =>
    if out.length < need then
      if 0 < st.run then
        decodeLoop channels fuel need bytes ⟨st.run - 1, st.px, st.cache⟩
          (out ++ emit channels st.px)
      else
        match bytes with
        | [] => .error .ioError
        | b1 :: bs =>
          match dispatch ⟨0, st.px, st.cache⟩ b1 bs with
          | .error e => .error e
          | .ok (run', px', bs') =>
            decodeLoop channels fuel need bs'
              ⟨run', px', updCache st.cache (color_hash px' % 64) px'⟩
              (out ++ emit channels px')
    else
      .ok (out, st, bytes)

/-- `pub fn decode` over a list-of-bytes source. -/
def decode (source : List Nat) (channels : ChannelCount) :
    Except DecodeErr (List Nat × Nat × Nat) :=
  match decode_header source with
  | .error e => .error e
  | .ok ((width, height, _csize), rest) =>
    let total_pixels := width * height
    let uncompressed_len := total_pixels * channels.toNat
    match decodeLoop channels (uncompressed_len + 1) uncompressed_len rest
        ⟨0, DEFAULT_PREV_PIXEL, zeroCache⟩ [] with
    | .error e => .error e
    | .ok (out, _, _) => .ok (out, width, height)

/-- The seven mask tests of the decoder's dispatch chain, in source order. -/
def dispatchTests (b : Nat) : List Bool :=
  [b &&& QOI_MASK_2 == QOI_INDEX,
   b &&& QOI_MASK_3 == QOI_RUN_8,
   b &&& QOI_MASK_3 == QOI_RUN_16,
   b &&& QOI_MASK_2 == QOI_DIFF_8,
   b &&& QOI_MASK_3 == QOI_DIFF_16,
   b &&& QOI_MASK_4 == QOI_DIFF_24,
   b &&& QOI_MASK_4 == QOI_COLOR]

/-! ## Specification-side helpers (not part of the source embedding) -/

/-- Wrapping 8-bit addition of a signed delta — the mathematical effect the
decoder's `u8` arithmetic is supposed to have on a channel. -/
def wrapAdd (x : Nat) (v : Int) : Nat := (((x : Int) + v) % 256).toNat

/-- All four channels of a pixel are bytes. -/
def PixelOK (p : Rgba) : Prop := p.r < 256 ∧ p.g < 256 ∧ p.b < 256 ∧ p.a < 256

/-- Cache coherence maintained across a round-trip: the decoder's cache agrees
with the encoder's except possibly at slots the encoder never wrote (still
`zeroPixel` on its side), which the decoder may have filled with
`DEFAULT_PREV_PIXEL` by its extra post-`RUN` update. -/
def CacheRel (cE cD : Nat → Rgba) : Prop :=
  ∀ h, cD h = cE h ∨ (cE h = zeroPixel ∧ cD h = DEFAULT_PREV_PIXEL)

/-- The encoder's previous pixel is present in its cache at its own slot,
except when it is still the initial `DEFAULT_PREV_PIXEL` and that slot is
untouched. -/
def PrevCached (cE : Nat → Rgba) (prev : Rgba) : Prop :=
  cE (color_hash prev % 64) = prev ∨
    (prev = DEFAULT_PREV_PIXEL ∧ cE (color_hash prev % 64) = zeroPixel)

/-- An RGBA input family whose every pixel moves all four channels by 17
(mod 256): every pixel after the first costs five instruction bytes, so the
instruction stream exceeds 2^32 bytes for large enough `n`. -/
def c5data (n : Nat) : List Nat :=
  (List.range n).flatMap (fun i => List.replicate 4 (17 * i % 256))

/-- The pixel values of `c5data`. -/
def c5pix (i : Nat) : Rgba :=
  ⟨17 * i % 256, 17 * i % 256, 17 * i % 256, 17 * i % 256⟩

/-! ## Basic facts about the helpers -/

theorem emit_length (c : ChannelCount) (p : Rgba) : (emit c p).length = c.toNat := by
  cases c <;> rfl

theorem channel_pos (c : ChannelCount) : 0 < c.toNat := by
  cases c <;> decide

theorem updCache_apply (c : Nat → Rgba) (i j : Nat) (v : Rgba) :
    updCache c i v j = if j = i then v else c j := rfl

theorem updCache_same (c : Nat → Rgba) (i : Nat) (v : Rgba) : updCache c i v i = v := by
  simp [updCache]

theorem updCache_self (c : Nat → Rgba) (i : Nat) : updCache c i (c i) = c := by
  funext j
  by_cases h : j = i <;> simp [updCache, h]

theorem updCache_idem (c : Nat → Rgba) (i : Nat) (v w : Rgba) :
    updCache (updCache c i v) i w = updCache c i w := by
  funext j
  by_cases h : j = i <;> simp [updCache, h]

theorem u8add_lt (x y : Nat) : u8add x y < 256 :=
  Nat.mod_lt _ (by norm_num)

theorem u8_recover (p q X bias : Nat) (v : Int) (hq : q < 256)
    (hv : (q : Int) - p = v) (hX : (X : Int) = v + bias) :
    u8add p (u8sub X bias) = q := by
  unfold u8add u8sub
  omega

theorem nat_shr8 (n : Nat) : n >>> 8 = n / 256 := by
  rw [Nat.shiftRight_eq_div_pow]

/-! ## Bit-level facts about the instruction bytes, by bounded enumeration -/

theorem bits_index : ∀ h < 64, h &&& QOI_MASK_2 = QOI_INDEX := by decide

theorem bits_run8 : ∀ r < 32,
    ¬(QOI_RUN_8 ||| r) &&& QOI_MASK_2 = QOI_INDEX ∧
    (QOI_RUN_8 ||| r) &&& QOI_MASK_3 = QOI_RUN_8 ∧
    (QOI_RUN_8 ||| r) &&& 0x1F = r := by decide

theorem bits_run16 : ∀ u < 32,
    ¬(QOI_RUN_16 ||| u) &&& QOI_MASK_2 = QOI_INDEX ∧
    ¬(QOI_RUN_16 ||| u) &&& QOI_MASK_3 = QOI_RUN_8 ∧
    (QOI_RUN_16 ||| u) &&& QOI_MASK_3 = QOI_RUN_16 ∧
    (QOI_RUN_16 ||| u) &&& 0x1F = u := by decide

theorem bits_shl8 : ∀ u < 32, ∀ m < 256, (u <<< 8) ||| m = 256 * u + m := by decide

theorem bits_diff8_tag : ∀ x < 4, ∀ y < 4, ∀ z < 4,
    ¬(QOI_DIFF_8 ||| (((x <<< 4) ||| (y <<< 2) ||| z) % 256)) &&& QOI_MASK_2 = QOI_INDEX ∧
    ¬(QOI_DIFF_8 ||| (((x <<< 4) ||| (y <<< 2) ||| z) % 256)) &&& QOI_MASK_3 = QOI_RUN_8 ∧
    ¬(QOI_DIFF_8 ||| (((x <<< 4) ||| (y <<< 2) ||| z) % 256)) &&& QOI_MASK_3 = QOI_RUN_16 ∧
    (QOI_DIFF_8 ||| (((x <<< 4) ||| (y <<< 2) ||| z) % 256)) &&& QOI_MASK_2 = QOI_DIFF_8 := by
  decide

theorem bits_diff8_val : ∀ x < 4, ∀ y < 4, ∀ z < 4,
    ((QOI_DIFF_8 ||| (((x <<< 4) ||| (y <<< 2) ||| z) % 256)) >>> 4) &&& 0x03 = x ∧
    ((QOI_DIFF_8 ||| (((x <<< 4) ||| (y <<< 2) ||| z) % 256)) >>> 2) &&& 0x03 = y ∧
    (QOI_DIFF_8 ||| (((x <<< 4) ||| (y <<< 2) ||| z) % 256)) &&& 0x03 = z := by decide

theorem bits_diff16_b1 : ∀ R < 32,
    ¬(QOI_DIFF_16 ||| (R % 256)) &&& QOI_MASK_2 = QOI_INDEX ∧
    ¬(QOI_DIFF_16 ||| (R % 256)) &&& QOI_MASK_3 = QOI_RUN_8 ∧
    ¬(QOI_DIFF_16 ||| (R % 256)) &&& QOI_MASK_3 = QOI_RUN_16 ∧
    ¬(QOI_DIFF_16 ||| (R % 256)) &&& QOI_MASK_2 = QOI_DIFF_8 ∧
    (QOI_DIFF_16 ||| (R % 256)) &&& QOI_MASK_3 = QOI_DIFF_16 ∧
    (QOI_DIFF_16 ||| (R % 256)) &&& 0x1F = R := by decide

theorem bits_diff16_b2 : ∀ G < 16, ∀ Bv < 16,
    (((G <<< 4) ||| Bv) % 256) >>> 4 = G ∧
    (((G <<< 4) ||| Bv) % 256) &&& 0x0F = Bv := by decide

theorem bits_diff24_b1 : ∀ R < 32,
    ¬(QOI_DIFF_24 ||| ((R >>> 1) % 256)) &&& QOI_MASK_2 = QOI_INDEX ∧
    ¬(QOI_DIFF_24 ||| ((R >>> 1) % 256)) &&& QOI_MASK_3 = QOI_RUN_8 ∧
    ¬(QOI_DIFF_24 ||| ((R >>> 1) % 256)) &&& QOI_MASK_3 = QOI_RUN_16 ∧
    ¬(QOI_DIFF_24 ||| ((R >>> 1) % 256)) &&& QOI_MASK_2 = QOI_DIFF_8 ∧
    ¬(QOI_DIFF_24 ||| ((R >>> 1) % 256)) &&& QOI_MASK_3 = QOI_DIFF_16 ∧
    (QOI_DIFF_24 ||| ((R >>> 1) % 256)) &&& QOI_MASK_4 = QOI_DIFF_24 ∧
    (QOI_DIFF_24 ||| ((R >>> 1) % 256)) &&& 0x0F = R >>> 1 := by decide

theorem bits_low7 : ∀ G < 32, ∀ Bh < 4, (G <<< 2) ||| Bh = 4 * G + Bh ∧ 4 * G + Bh < 128 := by
  decide

theorem bits_shl7_lor : ∀ R < 32, ∀ low < 128,
    ((R <<< 7) ||| low) % 256 = R % 2 * 128 + low := by decide

theorem bits_d24_x : ∀ r2 < 2, ∀ G < 32, ∀ Bh < 4,
    (r2 * 128 + (4 * G + Bh)) >>> 7 = r2 ∧
    ((r2 * 128 + (4 * G + Bh)) &&& 0x7C) >>> 2 = G ∧
    (r2 * 128 + (4 * G + Bh)) &&& 0x03 = Bh := by decide

theorem bits_halves : ∀ R < 32, ((R >>> 1) <<< 1) ||| (R % 2) = R := by decide

theorem bits_d24_b3 : ∀ B < 32, ∀ A < 32, ((B <<< 5) ||| A) % 256 = B % 8 * 32 + A := by
  decide

theorem bits_d24_x3 : ∀ Bl < 8, ∀ A < 32,
    ((Bl * 32 + A) &&& 0xE0) >>> 5 = Bl ∧ (Bl * 32 + A) &&& 0x1F = A := by decide

theorem bits_b38 : ∀ B < 32, ((B >>> 3) <<< 3) ||| (B % 8) = B := by decide

theorem gate_eq (v : Int) (x : Nat) : gate v x = (if v ≠ 0 then 1 else 0) * x := by
  unfold gate
  split <;> simp

/-! ## The decoder's dispatch on each instruction shape -/

theorem dispatch_index (st : DecSt) (h : Nat) (hh : h < 64) (bs : List Nat) :
    dispatch st (QOI_INDEX ||| h) bs = .ok (st.run, st.cache h, bs) := by
  have hb : QOI_INDEX ||| h = h := Nat.zero_or h
  rw [dispatch.eq_def, hb, if_pos (bits_index h hh)]
  simp only [QOI_INDEX, Nat.xor_zero]

theorem dispatch_run8 (st : DecSt) (r : Nat) (hr : r < 32) (bs : List Nat) :
    dispatch st (QOI_RUN_8 ||| r) bs = .ok (r, st.px, bs) := by
  obtain ⟨h1, h2, h3⟩ := bits_run8 r hr
  rw [dispatch.eq_def, if_neg h1, if_pos h2, h3]

theorem dispatch_run16 (st : DecSt) (u m : Nat) (hu : u < 32) (hm : m < 256) (bs : List Nat) :
    dispatch st (QOI_RUN_16 ||| u) (m :: bs) = .ok (256 * u + m + 32, st.px, bs) := by
  obtain ⟨h1, h2, h3, h4⟩ := bits_run16 u hu
  rw [dispatch.eq_def, if_neg h1, if_neg h2, if_pos h3]
  simp only [h4, bits_shl8 u hu m hm]

theorem dispatch_diff8 (st : DecSt) (x y z : Nat) (hx : x < 4) (hy : y < 4) (hz : z < 4)
    (bs : List Nat) :
    dispatch st (QOI_DIFF_8 ||| (((x <<< 4) ||| (y <<< 2) ||| z) % 256)) bs =
      .ok (st.run, ⟨u8add st.px.r (u8sub x 1), u8add st.px.g (u8sub y 1),
                    u8add st.px.b (u8sub z 1), st.px.a⟩, bs) := by
  obtain ⟨h1, h2, h3, h4⟩ := bits_diff8_tag x hx y hy z hz
  obtain ⟨v1, v2, v3⟩ := bits_diff8_val x hx y hy z hz
  rw [dispatch.eq_def, if_neg h1, if_neg h2, if_neg h3, if_pos h4]
  simp only [v1, v2, v3]

theorem dispatch_diff16 (st : DecSt) (R G Bv : Nat) (hR : R < 32) (hG : G < 16) (hB : Bv < 16)
    (bs : List Nat) :
    dispatch st (QOI_DIFF_16 ||| (R % 256)) ((((G <<< 4) ||| Bv) % 256) :: bs) =
      .ok (st.run, ⟨u8add st.px.r (u8sub R 15), u8add st.px.g (u8sub G 7),
                    u8add st.px.b (u8sub Bv 7), st.px.a⟩, bs) := by
  obtain ⟨h1, h2, h3, h4, h5, h6⟩ := bits_diff16_b1 R hR
  obtain ⟨v1, v2⟩ := bits_diff16_b2 G hG Bv hB
  rw [dispatch.eq_def, if_neg h1, if_neg h2, if_neg h3, if_neg h4, if_pos h5]
  simp only [h6, v1, v2]

theorem dispatch_diff24 (st : DecSt) (R G B A : Nat)
    (hR : R < 32) (hG : G < 32) (hB : B < 32) (hA : A < 32) (bs : List Nat) :
    dispatch st (QOI_DIFF_24 ||| ((R >>> 1) % 256))
      ((((R <<< 7) ||| (G <<< 2) ||| (B >>> 3)) % 256) :: (((B <<< 5) ||| A) % 256) :: bs) =
      .ok (st.run, ⟨u8add st.px.r (u8sub R 15), u8add st.px.g (u8sub G 15),
                    u8add st.px.b (u8sub B 15), u8add st.px.a (u8sub A 15)⟩, bs) := by
  obtain ⟨h1, h2, h3, h4, h5, h6, h7⟩ := bits_diff24_b1 R hR
  have hBh : B >>> 3 < 4 := by
    rw [Nat.shiftRight_eq_div_pow]
    omega
  obtain ⟨hlow, hlow128⟩ := bits_low7 G hG (B >>> 3) hBh
  have hb2 : ((R <<< 7) ||| (G <<< 2) ||| (B >>> 3)) % 256 = R % 2 * 128 + (4 * G + B >>> 3) := by
    rw [Nat.lor_assoc, hlow, bits_shl7_lor R hR (4 * G + B >>> 3) hlow128]
  have hr2 : R % 2 < 2 := Nat.mod_lt _ (by norm_num)
  obtain ⟨x1, x2, x3⟩ := bits_d24_x (R % 2) hr2 G hG (B >>> 3) hBh
  have hb3 : ((B <<< 5) ||| A) % 256 = B % 8 * 32 + A := bits_d24_b3 B hB A hA
  have hB8 : B % 8 < 8 := Nat.mod_lt _ (by norm_num)
  obtain ⟨y1, y2⟩ := bits_d24_x3 (B % 8) hB8 A hA
  rw [dispatch.eq_def, if_neg h1, if_neg h2, if_neg h3, if_neg h4, if_neg h5, if_pos h6]
  simp only [hb2, hb3, h7]
  simp only [x1, x2, x3, y1, y2, bits_halves R hR, bits_b38 B hB]

theorem dispatch_color (st : DecSt) (vr vg vb va : Int) (r g b a : Nat) (bs : List Nat) :
    dispatch st (QOI_COLOR ||| gate vr 8 ||| gate vg 4 ||| gate vb 2 ||| gate va 1)
      ((if vr ≠ 0 then [r] else []) ++ (if vg ≠ 0 then [g] else []) ++
       (if vb ≠ 0 then [b] else []) ++ (if va ≠ 0 then [a] else []) ++ bs) =
      .ok (st.run, ⟨if vr ≠ 0 then r else st.px.r, if vg ≠ 0 then g else st.px.g,
                    if vb ≠ 0 then b else st.px.b, if va ≠ 0 then a else st.px.a⟩, bs) := by
  by_cases h1 : vr = 0 <;> by_cases h2 : vg = 0 <;> by_cases h3 : vb = 0 <;> by_cases h4 : va = 0 <;>
    simp only [gate, h1, h2, h3, h4, ne_eq, not_true_eq_false, not_false_eq_true, if_true,
      if_false, ite_true, ite_false, List.nil_append, List.singleton_append, List.cons_append,
      List.append_assoc] <;>
    rfl

/-! ## Step lemmas for the decoder loop -/

theorem decodeLoop_stop (ch : ChannelCount) (fuel need : Nat) (bytes : List Nat) (st : DecSt)
    (out : List Nat) (h : ¬out.length < need) :
    decodeLoop ch (fuel + 1) need bytes st out = .ok (out, st, bytes) := by
  simp only [decodeLoop]
  rw [if_neg h]

theorem decodeLoop_runStep (ch : ChannelCount) (fuel need : Nat) (bytes : List Nat) (st : DecSt)
    (out : List Nat) (h : out.length < need) (hr : 0 < st.run) :
    decodeLoop ch (fuel + 1) need bytes st out =
      decodeLoop ch fuel need bytes ⟨st.run - 1, st.px, st.cache⟩ (out ++ emit ch st.px) := by
  simp only [decodeLoop]
  rw [if_pos h, if_pos hr]

theorem decodeLoop_dispatchStep (ch : ChannelCount) (fuel need : Nat) (b1 : Nat)
    (bs bs' : List Nat) (st : DecSt) (out : List Nat) (run' : Nat) (px' : Rgba)
    (h : out.length < need) (hr : st.run = 0)
    (hd : dispatch ⟨0, st.px, st.cache⟩ b1 bs = .ok (run', px', bs')) :
    decodeLoop ch (fuel + 1) need (b1 :: bs) st out =
      decodeLoop ch fuel need bs'
        ⟨run', px', updCache st.cache (color_hash px' % 64) px'⟩ (out ++ emit ch px') := by
  simp only [decodeLoop]
  rw [if_pos h, if_neg (by omega : ¬0 < st.run), hd]

/-! ## Block lemmas: how the decoder consumes each encoder emission -/

theorem decodeLoop_drain (ch : ChannelCount) (j : Nat) :
    ∀ (f need : Nat) (bytes : List Nat) (px : Rgba) (cache : Nat → Rgba) (out : List Nat),
      out.length + j * ch.toNat ≤ need →
      decodeLoop ch (j + f) need bytes ⟨j, px, cache⟩ out =
        decodeLoop ch f need bytes ⟨0, px, cache⟩
          (out ++ (List.replicate j px).flatMap (emit ch)) := by
  induction j with
  | zero =>
    intro f need bytes px cache out _
    simp
  | succ j ih =>
    intro f need bytes px cache out hle
    have hC := channel_pos ch
    have hsm : (j + 1) * ch.toNat = j * ch.toNat + ch.toNat := Nat.succ_mul j _
    have hlt : out.length < need := by omega
    rw [show j + 1 + f = (j + f) + 1 by omega,
      decodeLoop_runStep ch (j + f) need bytes ⟨j + 1, px, cache⟩ out hlt (by simp)]
    have hlen' : (out ++ emit ch px).length + j * ch.toNat ≤ need := by
      rw [List.length_append, emit_length]
      omega
    simp only [Nat.add_sub_cancel]
    rw [ih f need bytes px cache (out ++ emit ch px) hlen']
    simp [List.replicate_succ]

theorem decode_run_block (ch : ChannelCount) (r f need : Nat) (tail : List Nat) (prev : Rgba)
    (cD : Nat → Rgba) (out : List Nat) (hr1 : 1 ≤ r) (hr2 : r ≤ MAX_RUN_LENGTH)
    (hlen : out.length + r * ch.toNat ≤ need) :
    decodeLoop ch (r + f) need (run_flush_bytes r ++ tail) ⟨0, prev, cD⟩ out =
      decodeLoop ch f need tail ⟨0, prev, updCache cD (color_hash prev % 64) prev⟩
        (out ++ (List.replicate r prev).flatMap (emit ch)) := by
  obtain ⟨k, rfl⟩ : ∃ k, r = k + 1 := ⟨r - 1, by omega⟩
  have hC := channel_pos ch
  have hsm : (k + 1) * ch.toNat = k * ch.toNat + ch.toNat := Nat.succ_mul k _
  have hlt : out.length < need := by omega
  have hlen' : (out ++ emit ch prev).length + k * ch.toNat ≤ need := by
    rw [List.length_append, emit_length]
    omega
  unfold run_flush_bytes
  by_cases hsmall : k + 1 < MAX_RUN_8_LENGTH
  · rw [if_pos hsmall]
    have hk32 : k < 32 := by
      unfold MAX_RUN_8_LENGTH at hsmall
      omega
    have hd := dispatch_run8 ⟨0, prev, cD⟩ k hk32 tail
    rw [List.singleton_append, show k + 1 + f = (k + f) + 1 by omega, Nat.add_sub_cancel,
      decodeLoop_dispatchStep ch (k + f) need _ tail tail ⟨0, prev, cD⟩ out k prev hlt rfl hd,
      decodeLoop_drain ch k f need tail prev _ (out ++ emit ch prev) hlen']
    simp [List.replicate_succ]
  · rw [if_neg hsmall]
    have hbig : 33 ≤ k + 1 := by
      unfold MAX_RUN_8_LENGTH at hsmall
      omega
    have hmax : k + 1 ≤ 8224 := hr2
    have hu : (k + 1 - MAX_RUN_8_LENGTH) >>> 8 < 32 := by
      rw [nat_shr8]
      unfold MAX_RUN_8_LENGTH
      omega
    have hm : (k + 1 - MAX_RUN_8_LENGTH) % 256 < 256 := Nat.mod_lt _ (by norm_num)
    have hd := dispatch_run16 ⟨0, prev, cD⟩ _ _ hu hm tail
    have hrun : 256 * ((k + 1 - MAX_RUN_8_LENGTH) >>> 8) + (k + 1 - MAX_RUN_8_LENGTH) % 256 + 32
        = k := by
      rw [nat_shr8]
      have := Nat.div_add_mod (k + 1 - MAX_RUN_8_LENGTH) 256
      unfold MAX_RUN_8_LENGTH at *
      omega
    rw [hrun] at hd
    rw [List.cons_append, List.singleton_append, show k + 1 + f = (k + f) + 1 by omega,
      decodeLoop_dispatchStep ch (k + f) need _ _ tail ⟨0, prev, cD⟩ out k prev hlt rfl hd,
      decodeLoop_drain ch k f need tail prev _ (out ++ emit ch prev) hlen']
    simp [List.replicate_succ]

theorem decode_index_block (ch : ChannelCount) (f need : Nat) (tail : List Nat)
    (px prev : Rgba) (cD : Nat → Rgba) (out : List Nat)
    (hcd : cD (color_hash px % 64) = px) (hlen : out.length + ch.toNat ≤ need) :
    decodeLoop ch (1 + f) need ((QOI_INDEX ||| (color_hash px % 64)) :: tail) ⟨0, prev, cD⟩ out =
      decodeLoop ch f need tail ⟨0, px, updCache cD (color_hash px % 64) px⟩
        (out ++ emit ch px) := by
  have hh : color_hash px % 64 < 64 := Nat.mod_lt _ (by norm_num)
  have hd := dispatch_index ⟨0, prev, cD⟩ (color_hash px % 64) hh tail
  rw [show (⟨0, prev, cD⟩ : DecSt).cache (color_hash px % 64) = px from hcd] at hd
  have hlt : out.length < need := by
    have := channel_pos ch
    omega
  rw [show 1 + f = f + 1 by omega]
  exact decodeLoop_dispatchStep ch f need _ tail tail ⟨0, prev, cD⟩ out 0 px hlt rfl hd

theorem decode_pixel_block (ch : ChannelCount) (f need : Nat) (tail : List Nat)
    (px prev : Rgba) (cD : Nat → Rgba) (out : List Nat)
    (hpx : PixelOK px)
    (hlen : out.length + ch.toNat ≤ need) :
    decodeLoop ch (1 + f) need (pixel_bytes px prev ++ tail) ⟨0, prev, cD⟩ out =
      decodeLoop ch f need tail ⟨0, px, updCache cD (color_hash px % 64) px⟩
        (out ++ emit ch px) := by
  obtain ⟨hxr, hxg, hxb, hxa⟩ := hpx
  have hlt : out.length < need := by
    have := channel_pos ch
    omega
  have heta : (⟨px.r, px.g, px.b, px.a⟩ : Rgba) = px := rfl
  rw [show 1 + f = f + 1 by omega]
  by_cases hsmall :
      (-16 < (px.r : Int) - prev.r ∧ (px.r : Int) - prev.r < 17) ∧
      (-16 < (px.g : Int) - prev.g ∧ (px.g : Int) - prev.g < 17) ∧
      (-16 < (px.b : Int) - prev.b ∧ (px.b : Int) - prev.b < 17) ∧
      (-16 < (px.a : Int) - prev.a ∧ (px.a : Int) - prev.a < 17)
  · by_cases h8 : (px.a : Int) - prev.a = 0 ∧
        -2 < (px.r : Int) - prev.r ∧ (px.r : Int) - prev.r < 3 ∧
        -2 < (px.g : Int) - prev.g ∧ (px.g : Int) - prev.g < 3 ∧
        -2 < (px.b : Int) - prev.b ∧ (px.b : Int) - prev.b < 3
    · -- QOI_DIFF_8
      have hbytes : pixel_bytes px prev =
          [QOI_DIFF_8 ||| (((((px.r : Int) - prev.r + 1).toNat <<< 4) |||
            (((px.g : Int) - prev.g + 1).toNat <<< 2) |||
            ((px.b : Int) - prev.b + 1).toNat) % 256)] := by
        simp only [pixel_bytes, subtract_pixels]
        rw [if_pos hsmall, if_pos h8]
      have hx : ((px.r : Int) - prev.r + 1).toNat < 4 := by omega
      have hy : ((px.g : Int) - prev.g + 1).toNat < 4 := by omega
      have hz : ((px.b : Int) - prev.b + 1).toNat < 4 := by omega
      have hd := dispatch_diff8 ⟨0, prev, cD⟩ _ _ _ hx hy hz tail
      dsimp only at hd
      rw [u8_recover prev.r px.r _ 1 ((px.r : Int) - prev.r) hxr rfl (by omega),
        u8_recover prev.g px.g _ 1 ((px.g : Int) - prev.g) hxg rfl (by omega),
        u8_recover prev.b px.b _ 1 ((px.b : Int) - prev.b) hxb rfl (by omega),
        show prev.a = px.a by omega, heta] at hd
      rw [hbytes, List.singleton_append]
      exact decodeLoop_dispatchStep ch f need _ tail tail ⟨0, prev, cD⟩ out 0 px hlt rfl hd
    · by_cases h16 : (px.a : Int) - prev.a = 0 ∧
          -16 < (px.r : Int) - prev.r ∧ (px.r : Int) - prev.r < 17 ∧
          -8 < (px.g : Int) - prev.g ∧ (px.g : Int) - prev.g < 9 ∧
          -8 < (px.b : Int) - prev.b ∧ (px.b : Int) - prev.b < 9
      · -- QOI_DIFF_16
        have hbytes : pixel_bytes px prev =
            [QOI_DIFF_16 ||| (((px.r : Int) - prev.r + 15).toNat % 256),
             ((((px.g : Int) - prev.g + 7).toNat <<< 4) |||
              ((px.b : Int) - prev.b + 7).toNat) % 256] := by
          simp only [pixel_bytes, subtract_pixels]
          rw [if_pos hsmall, if_neg h8, if_pos h16]
        have hR : ((px.r : Int) - prev.r + 15).toNat < 32 := by omega
        have hG : ((px.g : Int) - prev.g + 7).toNat < 16 := by omega
        have hB : ((px.b : Int) - prev.b + 7).toNat < 16 := by omega
        have hd := dispatch_diff16 ⟨0, prev, cD⟩ _ _ _ hR hG hB tail
        dsimp only at hd
        rw [u8_recover prev.r px.r _ 15 ((px.r : Int) - prev.r) hxr rfl (by omega),
          u8_recover prev.g px.g _ 7 ((px.g : Int) - prev.g) hxg rfl (by omega),
          u8_recover prev.b px.b _ 7 ((px.b : Int) - prev.b) hxb rfl (by omega),
          show prev.a = px.a by omega, heta] at hd
        rw [hbytes, List.cons_append, List.singleton_append]
        exact decodeLoop_dispatchStep ch f need _ _ tail ⟨0, prev, cD⟩ out 0 px hlt rfl hd
      · -- QOI_DIFF_24
        have hbytes : pixel_bytes px prev = diff24Bytes ((px.r : Int) - prev.r)
            ((px.g : Int) - prev.g) ((px.b : Int) - prev.b) ((px.a : Int) - prev.a) := by
          simp only [pixel_bytes, subtract_pixels]
          rw [if_pos hsmall, if_neg h8, if_neg h16]
        have hR : ((px.r : Int) - prev.r + 15).toNat < 32 := by omega
        have hG : ((px.g : Int) - prev.g + 15).toNat < 32 := by omega
        have hB : ((px.b : Int) - prev.b + 15).toNat < 32 := by omega
        have hA : ((px.a : Int) - prev.a + 15).toNat < 32 := by omega
        have hd := dispatch_diff24 ⟨0, prev, cD⟩ _ _ _ _ hR hG hB hA tail
        dsimp only at hd
        rw [u8_recover prev.r px.r _ 15 ((px.r : Int) - prev.r) hxr rfl (by omega),
          u8_recover prev.g px.g _ 15 ((px.g : Int) - prev.g) hxg rfl (by omega),
          u8_recover prev.b px.b _ 15 ((px.b : Int) - prev.b) hxb rfl (by omega),
          u8_recover prev.a px.a _ 15 ((px.a : Int) - prev.a) hxa rfl (by omega),
          heta] at hd
        rw [hbytes]
        unfold diff24Bytes
        rw [List.cons_append, List.cons_append, List.singleton_append]
        exact decodeLoop_dispatchStep ch f need _ _ tail ⟨0, prev, cD⟩ out 0 px hlt rfl hd
  · -- QOI_COLOR
    have hbytes : pixel_bytes px prev =
        [QOI_COLOR ||| gate ((px.r : Int) - prev.r) 8 ||| gate ((px.g : Int) - prev.g) 4 |||
          gate ((px.b : Int) - prev.b) 2 ||| gate ((px.a : Int) - prev.a) 1]
        ++ (if (px.r : Int) - prev.r ≠ 0 then [px.r] else [])
        ++ (if (px.g : Int) - prev.g ≠ 0 then [px.g] else [])
        ++ (if (px.b : Int) - prev.b ≠ 0 then [px.b] else [])
        ++ (if (px.a : Int) - prev.a ≠ 0 then [px.a] else []) := by
      simp only [pixel_bytes, subtract_pixels]
      rw [if_neg hsmall]
    have hd := dispatch_color ⟨0, prev, cD⟩ ((px.r : Int) - prev.r) ((px.g : Int) - prev.g)
      ((px.b : Int) - prev.b) ((px.a : Int) - prev.a) px.r px.g px.b px.a tail
    dsimp only at hd
    rw [show (if (px.r : Int) - prev.r ≠ 0 then px.r else prev.r) = px.r by split <;> omega,
      show (if (px.g : Int) - prev.g ≠ 0 then px.g else prev.g) = px.g by split <;> omega,
      show (if (px.b : Int) - prev.b ≠ 0 then px.b else prev.b) = px.b by split <;> omega,
      show (if (px.a : Int) - prev.a ≠ 0 then px.a else prev.a) = px.a by split <;> omega,
      heta] at hd
    simp only [List.append_assoc] at hd
    rw [hbytes]
    simp only [List.append_assoc, List.cons_append, List.singleton_append, List.nil_append]
    exact decodeLoop_dispatchStep ch f need _ _ tail ⟨0, prev, cD⟩ out 0 px hlt rfl hd

/-! ## Cache-relation preservation -/

theorem flatMap_replicate_length (ch : ChannelCount) (n : Nat) (p : Rgba) :
    ((List.replicate n p).flatMap (emit ch)).length = n * ch.toNat := by
  induction n with
  | zero => simp
  | succ n ihn => simp [List.replicate_succ, emit_length, ihn, Nat.succ_mul, Nat.add_comm]

theorem cacheRel_update_prev (cE cD : Nat → Rgba) (prev : Rgba)
    (hrel : CacheRel cE cD) (hpc : PrevCached cE prev) :
    CacheRel cE (updCache cD (color_hash prev % 64) prev) := by
  intro h
  by_cases hh : h = color_hash prev % 64
  · subst hh
    rw [updCache_same]
    rcases hpc with hp | ⟨hdef, hz⟩
    · left
      rw [hp]
    · right
      exact ⟨hz, hdef⟩
  · rw [updCache_apply, if_neg hh]
    exact hrel h

theorem cacheRel_update_hit (cE cD : Nat → Rgba) (h' : Nat) (px : Rgba)
    (hrel : CacheRel cE cD) (hhit : cE h' = px) :
    CacheRel cE (updCache cD h' px) := by
  intro h
  by_cases hh : h = h'
  · subst hh
    rw [updCache_same]
    left
    rw [hhit]
  · rw [updCache_apply, if_neg hh]
    exact hrel h

theorem cacheRel_update_both (cE cD : Nat → Rgba) (h' : Nat) (px : Rgba)
    (hrel : CacheRel cE cD) :
    CacheRel (updCache cE h' px) (updCache cD h' px) := by
  intro h
  by_cases hh : h = h'
  · subst hh
    rw [updCache_same, updCache_same]
    left
    rfl
  · rw [updCache_apply, if_neg hh, updCache_apply, if_neg hh]
    exact hrel h

/-- Run flush + decoder consumption, degenerate (empty) when `run = 0`. -/
theorem decode_runopt_block (ch : ChannelCount) (run f need : Nat) (tail : List Nat)
    (prev : Rgba) (cD : Nat → Rgba) (out : List Nat) (hmax : run ≤ MAX_RUN_LENGTH)
    (hlen : out.length + run * ch.toNat ≤ need) :
    decodeLoop ch (run + f) need ((if 0 < run then run_flush_bytes run else []) ++ tail)
        ⟨0, prev, cD⟩ out =
      decodeLoop ch f need tail
        ⟨0, prev, if 0 < run then updCache cD (color_hash prev % 64) prev else cD⟩
        (out ++ (List.replicate run prev).flatMap (emit ch)) := by
  by_cases hr : 0 < run
  · rw [if_pos hr, if_pos hr]
    exact decode_run_block ch run f need tail prev cD out hr hmax hlen
  · have : run = 0 := by omega
    subst this
    simp

/-! ## Unfolding the encoder one pixel at a time -/

theorem encLoop_cons_match_flush (total idx run : Nat) (prev : Rgba) (cE : Nat → Rgba)
    (rest : List Rgba) (hf : run + 1 = MAX_RUN_LENGTH ∨ idx + 1 = total) :
    encLoop total idx run prev cE (prev :: rest) =
      (run_flush_bytes (run + 1) ++ (encLoop total (idx + 1) 0 prev cE rest).1,
       (encLoop total (idx + 1) 0 prev cE rest).2) := by
  simp only [encLoop, eq_self_iff_true, if_true, not_true, false_or, Nat.succ_pos, true_and]
  rw [if_pos hf, if_pos hf]

theorem encLoop_cons_match_noflush (total idx run : Nat) (prev : Rgba) (cE : Nat → Rgba)
    (rest : List Rgba) (hf : ¬(run + 1 = MAX_RUN_LENGTH ∨ idx + 1 = total)) :
    encLoop total idx run prev cE (prev :: rest) =
      ((encLoop total (idx + 1) (run + 1) prev cE rest).1,
       (encLoop total (idx + 1) (run + 1) prev cE rest).2) := by
  simp only [encLoop, eq_self_iff_true, if_true, not_true, false_or, Nat.succ_pos, true_and]
  rw [if_neg hf, if_neg hf]
  simp only [List.nil_append]

theorem encLoop_cons_diff_hit (total idx run : Nat) (px prev : Rgba) (cE : Nat → Rgba)
    (rest : List Rgba) (hm : ¬px = prev) (hhit : cE (color_hash px % 64) = px) :
    encLoop total idx run prev cE (px :: rest) =
      ((if 0 < run then run_flush_bytes run else []) ++
        ([QOI_INDEX ||| (color_hash px % 64)] ++ (encLoop total (idx + 1) 0 px cE rest).1),
       (encLoop total (idx + 1) 0 px cE rest).2) := by
  have htr : run = MAX_RUN_LENGTH ∨ ¬px = prev ∨ idx + 1 = total := Or.inr (Or.inl hm)
  simp only [encLoop, if_neg hm]
  rw [if_pos hhit]
  by_cases h : 0 < run
  · rw [if_pos (⟨h, htr⟩ : 0 < run ∧ _), if_pos (⟨h, htr⟩ : 0 < run ∧ _), if_pos h]
    simp [List.append_assoc]
  · rw [if_neg (fun hc => h hc.1), if_neg (fun hc => h hc.1), if_neg h]
    have : run = 0 := by omega
    subst this
    simp [List.append_assoc]

theorem encLoop_cons_diff_miss (total idx run : Nat) (px prev : Rgba) (cE : Nat → Rgba)
    (rest : List Rgba) (hm : ¬px = prev) (hmiss : ¬cE (color_hash px % 64) = px) :
    encLoop total idx run prev cE (px :: rest) =
      ((if 0 < run then run_flush_bytes run else []) ++
        (pixel_bytes px prev ++
          (encLoop total (idx + 1) 0 px (updCache cE (color_hash px % 64) px) rest).1),
       (encLoop total (idx + 1) 0 px (updCache cE (color_hash px % 64) px) rest).2) := by
  have htr : run = MAX_RUN_LENGTH ∨ ¬px = prev ∨ idx + 1 = total := Or.inr (Or.inl hm)
  simp only [encLoop, if_neg hm]
  rw [if_neg hmiss]
  by_cases h : 0 < run
  · rw [if_pos (⟨h, htr⟩ : 0 < run ∧ _), if_pos (⟨h, htr⟩ : 0 < run ∧ _), if_pos h]
    simp [List.append_assoc]
  · rw [if_neg (fun hc => h hc.1), if_neg (fun hc => h hc.1), if_neg h]
    have : run = 0 := by omega
    subst this
    simp [List.append_assoc]

/-! ## The encoder/decoder simulation invariant -/

/-- `getLastD` of a cons, stated on the `getLast?.getD` normal form. -/
theorem getLast_getD_cons (l : List Rgba) : ∀ (a d : Rgba),
    (a :: l).getLast?.getD d = l.getLast?.getD a := by
  induction l with
  | nil =>
    intro a d
    rfl
  | cons b l ihl =>
    intro a d
    rw [List.getLast?_cons_cons, ihl b d, ihl b a]

/-- Main simulation lemma.  If the encoder still has `rest` to process with a
pending run of `run` copies of `prev`, and the decoder has already reproduced
everything the encoder emitted so far (its pixel is `prev`, its cache is
`CacheRel`-related, the encoder's previous pixel is `PrevCached`), then the
decoder consumes exactly the bytes the encoder will emit, reproduces
`replicate run prev ++ rest`, and the caches stay `CacheRel`-related. -/
theorem encdec_sim (ch : ChannelCount) (rest : List Rgba) :
    ∀ (idx run total need : Nat) (prev : Rgba) (cE cD : Nat → Rgba) (out : List Nat),
      idx + rest.length = total →
      (rest = [] → run = 0) →
      run < MAX_RUN_LENGTH →
      out.length + (run + rest.length) * ch.toNat = need →
      PixelOK prev → prev.a = 255 →
      (∀ p ∈ rest, PixelOK p ∧ p.a = 255) →
      CacheRel cE cD →
      PrevCached cE prev →
      ∃ cD' : Nat → Rgba,
        CacheRel (encLoop total idx run prev cE rest).2 cD' ∧
        ∀ (f : Nat) (tail : List Nat),
          decodeLoop ch (run + rest.length + f) need
              ((encLoop total idx run prev cE rest).1 ++ tail) ⟨0, prev, cD⟩ out =
            decodeLoop ch f need tail ⟨0, rest.getLastD prev, cD'⟩
              (out ++ (List.replicate run prev ++ rest).flatMap (emit ch)) := by
  induction rest with
  | nil =>
    intro idx run total need prev cE cD out _ hlast _ _ _ _ _ hrel _
    have hrun : run = 0 := hlast rfl
    subst hrun
    refine ⟨cD, ?_, ?_⟩
    · simpa [encLoop] using hrel
    · intro f tail
      simp [encLoop]
  | cons px rest ih =>
    intro idx run total need prev cE cD out htotal _hlast hmax hneed hokprev ha hokrest hrel hpc
    have hpok : PixelOK px := (hokrest px (by simp)).1
    have hpa : px.a = 255 := (hokrest px (by simp)).2
    have hrestok : ∀ p ∈ rest, PixelOK p ∧ p.a = 255 := fun p hp => hokrest p (by simp [hp])
    have hC := channel_pos ch
    rw [List.length_cons] at htotal hneed
    rw [show (run + (rest.length + 1)) * ch.toNat
        = run * ch.toNat + rest.length * ch.toNat + ch.toNat by ring] at hneed
    have e2 : (run + 1) * ch.toNat = run * ch.toNat + ch.toNat := Nat.succ_mul run _
    have e3 : (0 + rest.length) * ch.toNat = rest.length * ch.toNat := by ring
    by_cases hm : px = prev
    · subst hm
      by_cases hf : run + 1 = MAX_RUN_LENGTH ∨ idx + 1 = total
      · -- matching pixel, flush of the grown run
        rw [encLoop_cons_match_flush total idx run px cE rest hf]
        have hout1 : (out ++ (List.replicate (run + 1) px).flatMap (emit ch)).length
            + (0 + rest.length) * ch.toNat = need := by
          rw [List.length_append, flatMap_replicate_length, e3]
          omega
        obtain ⟨cD', hrel', heq'⟩ := ih (idx + 1) 0 total need px cE
          (updCache cD (color_hash px % 64) px)
          (out ++ (List.replicate (run + 1) px).flatMap (emit ch))
          (by omega) (fun _ => rfl) (by unfold MAX_RUN_LENGTH; omega)
          hout1 hokprev ha hrestok
          (cacheRel_update_prev cE cD px hrel hpc) hpc
        simp only [Nat.zero_add, List.replicate_zero, List.nil_append] at heq'
        refine ⟨cD', hrel', ?_⟩
        intro f tail
        rw [List.append_assoc,
          show run + (px :: rest).length + f = (run + 1) + (rest.length + f) by
            simp only [List.length_cons]; omega,
          decode_run_block ch (run + 1) (rest.length + f) need _ px cD out
            (by omega) (by omega) (by omega),
          heq' f tail]
        simp [getLast_getD_cons, List.replicate_succ', List.append_assoc]
      · -- matching pixel, run keeps growing
        rw [encLoop_cons_match_noflush total idx run px cE rest hf]
        have hnil : rest = [] → run + 1 = 0 := by
          intro hr
          exfalso
          apply hf
          right
          subst hr
          simpa using htotal
        have hmax' : run + 1 < MAX_RUN_LENGTH := by
          rcases Nat.lt_or_ge (run + 1) MAX_RUN_LENGTH with h | h
          · exact h
          · exact absurd (Or.inl (by omega)) hf
        obtain ⟨cD', hrel', heq'⟩ := ih (idx + 1) (run + 1) total need px cE cD out
          (by omega) hnil hmax'
          (by rw [show (run + 1 + rest.length) * ch.toNat
              = run * ch.toNat + rest.length * ch.toNat + ch.toNat by ring]; omega)
          hokprev ha hrestok hrel hpc
        refine ⟨cD', hrel', ?_⟩
        intro f tail
        rw [show run + (px :: rest).length + f = run + 1 + rest.length + f by
            simp only [List.length_cons]; omega,
          heq' f tail]
        simp [getLast_getD_cons, List.replicate_succ', List.append_assoc]
    · -- non-matching pixel: optional run flush, then one instruction
      have hlen1 : out.length + run * ch.toNat ≤ need := by omega
      have hout1 : (out ++ (List.replicate run prev).flatMap (emit ch)).length
          = out.length + run * ch.toNat := by
        rw [List.length_append, flatMap_replicate_length]
      have hlen2 : (out ++ (List.replicate run prev).flatMap (emit ch)).length + ch.toNat
          ≤ need := by omega
      have hrel1 : CacheRel cE
          (if 0 < run then updCache cD (color_hash prev % 64) prev else cD) := by
        by_cases hr : 0 < run
        · rw [if_pos hr]
          exact cacheRel_update_prev cE cD prev hrel hpc
        · rw [if_neg hr]
          exact hrel
      by_cases hhit : cE (color_hash px % 64) = px
      · -- QOI_INDEX
        rw [encLoop_cons_diff_hit total idx run px prev cE rest hm hhit]
        have hcd1 : (if 0 < run then updCache cD (color_hash prev % 64) prev else cD)
            (color_hash px % 64) = px := by
          rcases hrel1 (color_hash px % 64) with he | ⟨hz, _⟩
          · rw [he, hhit]
          · exfalso
            rw [hhit] at hz
            have : px.a = 0 := by
              simp [hz, zeroPixel]
            omega
        have hout2 : ((out ++ (List.replicate run prev).flatMap (emit ch)) ++ emit ch px).length
            + (0 + rest.length) * ch.toNat = need := by
          rw [List.length_append, hout1, emit_length, e3]
          omega
        obtain ⟨cD', hrel', heq'⟩ := ih (idx + 1) 0 total need px cE
          (updCache (if 0 < run then updCache cD (color_hash prev % 64) prev else cD)
            (color_hash px % 64) px)
          ((out ++ (List.replicate run prev).flatMap (emit ch)) ++ emit ch px)
          (by omega) (fun _ => rfl) (by unfold MAX_RUN_LENGTH; omega)
          hout2 hpok hpa hrestok
          (cacheRel_update_hit cE _ (color_hash px % 64) px hrel1 hhit)
          (Or.inl hhit)
        simp only [Nat.zero_add, List.replicate_zero, List.nil_append] at heq'
        refine ⟨cD', hrel', ?_⟩
        intro f tail
        rw [List.append_assoc,
          show run + (px :: rest).length + f = run + (1 + (rest.length + f)) by
            simp only [List.length_cons]; omega,
          decode_runopt_block ch run (1 + (rest.length + f)) need _ prev cD out
            (by omega) hlen1,
          List.append_assoc, List.singleton_append,
          decode_index_block ch (rest.length + f) need
            ((encLoop total (idx + 1) 0 px cE rest).1 ++ tail) px prev _ _ hcd1 hlen2,
          heq' f tail]
        simp [getLast_getD_cons, List.append_assoc]
      · -- QOI_DIFF_* / QOI_COLOR
        rw [encLoop_cons_diff_miss total idx run px prev cE rest hm hhit]
        have hout2 : ((out ++ (List.replicate run prev).flatMap (emit ch)) ++ emit ch px).length
            + (0 + rest.length) * ch.toNat = need := by
          rw [List.length_append, hout1, emit_length, e3]
          omega
        obtain ⟨cD', hrel', heq'⟩ := ih (idx + 1) 0 total need px
          (updCache cE (color_hash px % 64) px)
          (updCache (if 0 < run then updCache cD (color_hash prev % 64) prev else cD)
            (color_hash px % 64) px)
          ((out ++ (List.replicate run prev).flatMap (emit ch)) ++ emit ch px)
          (by omega) (fun _ => rfl) (by unfold MAX_RUN_LENGTH; omega)
          hout2 hpok hpa hrestok
          (cacheRel_update_both cE _ (color_hash px % 64) px hrel1)
          (Or.inl (updCache_same cE (color_hash px % 64) px))
        simp only [Nat.zero_add, List.replicate_zero, List.nil_append] at heq'
        refine ⟨cD', hrel', ?_⟩
        intro f tail
        rw [List.append_assoc,
          show run + (px :: rest).length + f = run + (1 + (rest.length + f)) by
            simp only [List.length_cons]; omega,
          decode_runopt_block ch run (1 + (rest.length + f)) need _ prev cD out
            (by omega) hlen1,
          List.append_assoc,
          decode_pixel_block ch (rest.length + f) need
            ((encLoop total (idx + 1) 0 px
              (updCache cE (color_hash px % 64) px) rest).1 ++ tail) px prev _ _ hpok hlen2,
          heq' f tail]
        simp [getLast_getD_cons, List.append_assoc]

/-! ## Facts about `bytesToPixels` for RGB input -/

theorem bytesToPixels_rgb_length : ∀ (data : List Nat) (px : Rgba),
    data.length % 3 = 0 → (bytesToPixels .rgb px data).length * 3 = data.length
  | [], _, _ => by simp [bytesToPixels]
  | [_], _, h => by simp at h
  | [_, _], _, h => by simp at h
  | r :: g :: b :: rest, px, h => by
    have h' : rest.length % 3 = 0 := by
      simp only [List.length_cons] at h
      omega
    have := bytesToPixels_rgb_length rest ⟨r, g, b, px.a⟩ h'
    simp only [bytesToPixels, List.length_cons]
    omega

theorem bytesToPixels_rgb_flatMap : ∀ (data : List Nat) (px : Rgba),
    data.length % 3 = 0 → (bytesToPixels .rgb px data).flatMap (emit .rgb) = data
  | [], _, _ => by simp [bytesToPixels]
  | [_], _, h => by simp at h
  | [_, _], _, h => by simp at h
  | r :: g :: b :: rest, px, h => by
    have h' : rest.length % 3 = 0 := by
      simp only [List.length_cons] at h
      omega
    simp only [bytesToPixels, List.flatMap_cons]
    rw [bytesToPixels_rgb_flatMap rest ⟨r, g, b, px.a⟩ h']
    rfl

theorem bytesToPixels_rgb_ok : ∀ (data : List Nat) (px : Rgba),
    (∀ b ∈ data, b < 256) → px.a = 255 →
    ∀ p ∈ bytesToPixels .rgb px data, PixelOK p ∧ p.a = 255
  | [], _, _, _ => by simp [bytesToPixels]
  | [_], _, _, _ => by simp [bytesToPixels]
  | [_, _], _, _, _ => by simp [bytesToPixels]
  | r :: g :: b :: rest, px, hb, ha => by
    simp only [bytesToPixels, List.mem_cons]
    rintro p (rfl | hp)
    · exact ⟨⟨hb r (by simp), hb g (by simp), hb b (by simp), by rw [ha]; omega⟩, ha⟩
    · exact bytesToPixels_rgb_ok rest ⟨r, g, b, px.a⟩
        (fun x hx => hb x (by simp [hx])) ha p hp

/-! ## Header-level packaging -/

theorem verify_rgb (W H : Nat) (hW1 : 1 ≤ W) (hW2 : W ≤ 65535) (hH2 : H ≤ 65535) :
    verify_and_calculate_dims (W * H * 3) W .rgb = some (W, H, W * H) := by
  have h3 : W * H * 3 % 3 = 0 := Nat.mul_mod_left (W * H) 3
  have hmodW : W * H * 3 % W = 0 := by
    rw [show W * H * 3 = W * (H * 3) by ring]
    exact Nat.mul_mod_right W (H * 3)
  have hdiv : W * H * 3 / (W * 3) = H := by
    rw [show W * H * 3 = H * (W * 3) by ring]
    exact Nat.mul_div_cancel H (Nat.mul_pos (by omega) (by omega))
  have hdiv3 : W * H * 3 / 3 = W * H := Nat.mul_div_cancel (W * H) (by omega)
  show verify_and_calculate_dims (W * H * 3) W ChannelCount.rgb = _
  unfold verify_and_calculate_dims
  show (if W * H * 3 % (ChannelCount.rgb).toNat ≠ 0 then none else _) = _
  rw [show (ChannelCount.rgb).toNat = 3 from rfl]
  rw [if_neg (by omega), if_neg (by omega), if_neg (by omega), hdiv, hdiv3]
  rw [if_neg (by omega), if_neg (by omega)]

theorem encode_size_header (w h sz : Nat) (img : List Nat) :
    encode_size (encode_header w h ++ img) sz 8 =
      MAGIC ++ le16 w ++ le16 h ++ le32 sz ++ img := by
  rfl

theorem encode_eq (data : List Nat) (W : Nat) (C : ChannelCount) (w h total : Nat)
    (hv : verify_and_calculate_dims data.length W C = some (w, h, total)) :
    encode data W C = some (MAGIC ++ le16 w ++ le16 h ++
      le32 ((encLoop total 0 0 DEFAULT_PREV_PIXEL zeroCache
          (bytesToPixels C DEFAULT_PREV_PIXEL data)).1 ++ List.replicate QOI_PADDING 0).length ++
      ((encLoop total 0 0 DEFAULT_PREV_PIXEL zeroCache
          (bytesToPixels C DEFAULT_PREV_PIXEL data)).1 ++ List.replicate QOI_PADDING 0)) := by
  unfold encode
  rw [hv]
  exact congrArg some (encode_size_header w h _ _)

theorem decode_header_stream (w h sz : Nat) (rest : List Nat) (hw : w < 65536) (hh : h < 65536)
    (hw0 : 0 < w) (hh0 : 0 < h) :
    decode_header (MAGIC ++ le16 w ++ le16 h ++ le32 sz ++ rest) =
      .ok ((w, h, sz % 256 + 256 * (sz / 256 % 256) + 65536 * (sz / 65536 % 256)
        + 16777216 * (sz / 16777216 % 256)), rest) := by
  have hw' : w % 256 + 256 * (w / 256 % 256) = w := by omega
  have hh' : h % 256 + 256 * (h / 256 % 256) = h := by omega
  show decode_header
      (0x71 :: 0x6F :: 0x69 :: 0x66 :: (w % 256) :: (w / 256 % 256) :: (h % 256) ::
        (h / 256 % 256) :: (sz % 256) :: (sz / 256 % 256) :: (sz / 65536 % 256) ::
        (sz / 16777216 % 256) :: rest) = _
  simp only [decode_header]
  rw [if_neg (by decide)]
  rw [hw', hh']
  rw [if_neg (by omega), if_neg (by omega)]

/-- Byte length of serialized pixels. -/
theorem flatMap_emit_length (ch : ChannelCount) : ∀ (l : List Rgba),
    (l.flatMap (emit ch)).length = l.length * ch.toNat := by
  intro l
  induction l with
  | nil => simp
  | cons p l ihl =>
    simp only [List.flatMap_cons, List.length_append, List.length_cons, emit_length, ihl,
      Nat.succ_mul]
    omega

/-- Master packaging: for valid RGB input, `encode` succeeds, decoding its
image-data region reproduces the pixels for either requested channel count,
the final caches are `CacheRel`-related, and `decode` returns the pixels. -/
theorem encode_decode_rgb (ch : ChannelCount) (data : List Nat) (W H : Nat)
    (hlen : data.length = W * H * 3) (hW1 : 1 ≤ W) (hW2 : W ≤ 65535)
    (hH1 : 1 ≤ H) (hH2 : H ≤ 65535) (hdata : ∀ b ∈ data, b < 256) :
    ∃ (s : List Nat) (cD' : Nat → Rgba),
      encode data W .rgb = some s ∧
      s = MAGIC ++ le16 W ++ le16 H ++
        le32 ((encLoop (W * H) 0 0 DEFAULT_PREV_PIXEL zeroCache
            (bytesToPixels .rgb DEFAULT_PREV_PIXEL data)).1 ++ List.replicate QOI_PADDING 0).length
        ++ ((encLoop (W * H) 0 0 DEFAULT_PREV_PIXEL zeroCache
            (bytesToPixels .rgb DEFAULT_PREV_PIXEL data)).1 ++ List.replicate QOI_PADDING 0) ∧
      CacheRel (encLoop (W * H) 0 0 DEFAULT_PREV_PIXEL zeroCache
        (bytesToPixels .rgb DEFAULT_PREV_PIXEL data)).2 cD' ∧
      decodeLoop ch (W * H * ch.toNat + 1) (W * H * ch.toNat)
          ((encLoop (W * H) 0 0 DEFAULT_PREV_PIXEL zeroCache
            (bytesToPixels .rgb DEFAULT_PREV_PIXEL data)).1 ++ List.replicate QOI_PADDING 0)
          ⟨0, DEFAULT_PREV_PIXEL, zeroCache⟩ [] =
        .ok ((bytesToPixels .rgb DEFAULT_PREV_PIXEL data).flatMap (emit ch),
          ⟨0, (bytesToPixels .rgb DEFAULT_PREV_PIXEL data).getLastD DEFAULT_PREV_PIXEL, cD'⟩,
          List.replicate QOI_PADDING 0) ∧
      decode s ch = .ok ((bytesToPixels .rgb DEFAULT_PREV_PIXEL data).flatMap (emit ch), W, H) := by
  have hv : verify_and_calculate_dims data.length W .rgb = some (W, H, W * H) := by
    rw [hlen]
    exact verify_rgb W H hW1 hW2 hH2
  have hC := channel_pos ch
  set pixels := bytesToPixels .rgb DEFAULT_PREV_PIXEL data with hpixdef
  set body := (encLoop (W * H) 0 0 DEFAULT_PREV_PIXEL zeroCache pixels).1 with hbodydef
  set pad := List.replicate QOI_PADDING 0 with hpaddef
  have hplen : pixels.length * 3 = data.length := by
    apply bytesToPixels_rgb_length
    omega
  have hpcount : pixels.length = W * H := by omega
  have hpok : ∀ p ∈ pixels, PixelOK p ∧ p.a = 255 :=
    bytesToPixels_rgb_ok data DEFAULT_PREV_PIXEL hdata rfl
  obtain ⟨cD', hrel', heq'⟩ := encdec_sim ch pixels 0 0 (W * H) (W * H * ch.toNat)
    DEFAULT_PREV_PIXEL zeroCache zeroCache []
    (by omega) (fun _ => rfl) (by unfold MAX_RUN_LENGTH; omega)
    (by simp [hpcount]) (by unfold PixelOK; decide) rfl hpok (fun _ => Or.inl rfl) (Or.inr ⟨rfl, rfl⟩)
  simp only [Nat.zero_add, List.replicate_zero, List.nil_append] at heq'
  have hflatlen : (pixels.flatMap (emit ch)).length = W * H * ch.toNat := by
    rw [flatMap_emit_length, hpcount]
  have hple : pixels.length ≤ W * H * ch.toNat := by
    rw [hpcount]
    exact Nat.le_mul_of_pos_right _ hC
  have hstep := heq' (W * H * ch.toNat + 1 - pixels.length) pad
  rw [show pixels.length + (W * H * ch.toNat + 1 - pixels.length) = W * H * ch.toNat + 1 by
      omega] at hstep
  rw [show W * H * ch.toNat + 1 - pixels.length = (W * H * ch.toNat - pixels.length) + 1 by
      omega] at hstep
  rw [decodeLoop_stop ch (W * H * ch.toNat - pixels.length) (W * H * ch.toNat) pad
      ⟨0, pixels.getLastD DEFAULT_PREV_PIXEL, cD'⟩ (pixels.flatMap (emit ch))
      (by rw [hflatlen]; omega)] at hstep
  refine ⟨_, cD', encode_eq data W .rgb W H (W * H) hv, rfl, hrel', hstep, ?_⟩
  unfold decode
  rw [decode_header_stream W H (body ++ pad).length (body ++ pad)
    (by omega) (by omega) (by omega) (by omega)]
  simp only []
  rw [hstep]

/-! ## Little-endian size-field facts -/

/-- The four little-endian bytes of `le32` reassemble to the value mod 2^32. -/
theorem readLe32_le32 (n : Nat) : readLe32 (le32 n) = n % 4294967296 := by
  show n % 256 + 256 * (n / 256 % 256) + 65536 * (n / 65536 % 256)
      + 16777216 * (n / 16777216 % 256) = n % 4294967296
  omega

/-! ## The decoder loop's output length -/

/-- Each loop iteration appends exactly `channels.toNat` bytes and the loop
stops at the first length `≥ need`, so from a multiple-of-`channels` start at
or below a multiple-of-`channels` target, success ends exactly at `need`. -/
theorem decodeLoop_ok_length (ch : ChannelCount) : ∀ (fuel : Nat) {need : Nat}
    {bs : List Nat} {st : DecSt} {out outF : List Nat} {stF : DecSt} {restF : List Nat},
    decodeLoop ch fuel need bs st out = .ok (outF, stF, restF) →
    ch.toNat ∣ out.length → ch.toNat ∣ need → out.length ≤ need →
    outF.length = need := by
  intro fuel
  induction fuel with
  | zero =>
    intro need bs st out outF stF restF h _ _ _
    simp only [decodeLoop] at h
    exact Except.noConfusion h
  | succ fuel ih =>
    intro need bs st out outF stF restF h hout hneed hle
    have hC := channel_pos ch
    simp only [decodeLoop] at h
    by_cases hlt : out.length < need
    · rw [if_pos hlt] at h
      obtain ⟨a, ha⟩ := hout
      obtain ⟨b, hb⟩ := hneed
      have hab : a < b := by
        rw [ha, hb] at hlt
        exact Nat.lt_of_mul_lt_mul_left hlt
      have hnext : ∀ p : Rgba,
          ch.toNat ∣ (out ++ emit ch p).length ∧ (out ++ emit ch p).length ≤ need := by
        intro p
        rw [List.length_append, emit_length, ha, hb]
        have hm : ch.toNat * (a + 1) ≤ ch.toNat * b := Nat.mul_le_mul_left _ hab
        rw [Nat.mul_succ] at hm
        exact ⟨⟨a + 1, by ring⟩, hm⟩
      by_cases hr : 0 < st.run
      · rw [if_pos hr] at h
        exact ih h (hnext st.px).1 ⟨b, hb⟩ (hnext st.px).2
      · rw [if_neg hr] at h
        cases bs with
        | nil => exact Except.noConfusion h
        | cons b1 bs2 =>
          dsimp only at h
          cases hd : dispatch ⟨0, st.px, st.cache⟩ b1 bs2 with
          | error e =>
            rw [hd] at h
            exact Except.noConfusion h
          | ok v =>
            obtain ⟨run2, px2, bs3⟩ := v
            rw [hd] at h
            exact ih h (hnext px2).1 ⟨b, hb⟩ (hnext px2).2
    · rw [if_neg hlt] at h
      rw [Except.ok.injEq, Prod.mk.injEq, Prod.mk.injEq] at h
      obtain ⟨h1, -, -⟩ := h
      rw [← h1]
      omega

/-! ## The all-channels-move-by-17 family behind the size-field overflow -/

/-- All four channels of a `c5pix` pixel are equal, so its hash is zero. -/
theorem c5_hash (i : Nat) : color_hash (c5pix i) = 0 := by
  unfold color_hash c5pix
  dsimp only
  rw [Nat.xor_self, Nat.zero_xor, Nat.xor_self]

/-- Consecutive `c5pix` pixels differ (their channels differ by 17 mod 256). -/
theorem c5_ne (k : Nat) (hk : 1 ≤ k) : ¬c5pix k = c5pix (k - 1) := by
  intro h
  have h' : 17 * k % 256 = 17 * (k - 1) % 256 := congrArg Rgba.r h
  omega

/-- Every `c5pix` step is outside every small-diff window, moves all four
channels, and so costs exactly the five `QOI_COLOR` bytes below. -/
theorem c5_pixel_bytes (k : Nat) (hk : 1 ≤ k) :
    pixel_bytes (c5pix k) (c5pix (k - 1)) =
      [0xFF, 17 * k % 256, 17 * k % 256, 17 * k % 256, 17 * k % 256] := by
  have hv : ((17 * k % 256 : Nat) : Int) - ((17 * (k - 1) % 256 : Nat) : Int) = 17 ∨
      ((17 * k % 256 : Nat) : Int) - ((17 * (k - 1) % 256 : Nat) : Int) = -239 := by
    omega
  unfold pixel_bytes subtract_pixels c5pix
  dsimp only
  rcases hv with hv | hv
  · rw [hv, if_neg (by decide)]
    norm_num [gate]
    rw [show QOI_COLOR ||| 8 ||| 4 ||| 2 ||| 1 = 255 from by decide]
  · rw [hv, if_neg (by decide)]
    norm_num [gate]
    rw [show QOI_COLOR ||| 8 ||| 4 ||| 2 ||| 1 = 255 from by decide]

/-- From pixel 1 on, every `c5pix` pixel is a cache miss whose emission is the
five-byte `QOI_COLOR` block: `5 * m` instruction bytes for `m` pixels. -/
theorem c5_encLoop_len (total : Nat) : ∀ (m idx k : Nat), 1 ≤ k →
    ((encLoop total idx 0 (c5pix (k - 1)) (updCache zeroCache 0 (c5pix (k - 1)))
      ((List.range' k m).map c5pix)).1).length = 5 * m := by
  intro m
  induction m with
  | zero =>
    intro idx k _
    rfl
  | succ m ihm =>
    intro idx k hk
    have hne := c5_ne k hk
    have hmiss : ¬updCache zeroCache 0 (c5pix (k - 1)) (color_hash (c5pix k) % 64) = c5pix k := by
      rw [c5_hash k, Nat.zero_mod, updCache_same]
      exact fun h => hne h.symm
    rw [List.range'_succ, List.map_cons,
      encLoop_cons_diff_miss total idx 0 (c5pix k) (c5pix (k - 1)) _ _ hne hmiss,
      if_neg (lt_irrefl 0), List.nil_append, c5_hash k, Nat.zero_mod, updCache_idem]
    have hrec := ihm (idx + 1) (k + 1) (by omega)
    rw [show k + 1 - 1 = k from rfl] at hrec
    rw [List.length_append, c5_pixel_bytes k hk, hrec]
    simp only [List.length_cons, List.length_nil]
    omega

/-- Pixel 0 of the family is an index hit (one byte, cache untouched), so `m+1`
pixels cost `1 + 5 * m` instruction bytes. -/
theorem c5_body_len (total : Nat) (m : Nat) :
    ((encLoop total 0 0 DEFAULT_PREV_PIXEL zeroCache
      ((List.range (m + 1)).map c5pix)).1).length = 1 + 5 * m := by
  rw [List.range_eq_range', List.range'_succ, List.map_cons,
    encLoop_cons_diff_hit total 0 0 (c5pix 0) DEFAULT_PREV_PIXEL zeroCache _
      (by decide) (by decide),
    if_neg (lt_irrefl 0), List.nil_append]
  have hc : updCache zeroCache 0 (c5pix 0) = zeroCache := by
    funext j
    unfold updCache
    split
    · exact (by decide : c5pix 0 = zeroPixel)
    · rfl
  have hrec := c5_encLoop_len total m 1 1 (by omega)
  rw [show (1 : Nat) - 1 = 0 from rfl, hc] at hrec
  simp only [Nat.zero_add]
  rw [List.length_append, hrec]
  simp only [List.length_cons, List.length_nil]

/-- The byte family parses into exactly the `c5pix` pixels (RGBA chunks). -/
theorem c5_bytesToPixels : ∀ (m k : Nat) (prev : Rgba),
    bytesToPixels .rgba prev
      ((List.range' k m).flatMap (fun i => List.replicate 4 (17 * i % 256))) =
      (List.range' k m).map c5pix := by
  intro m
  induction m with
  | zero =>
    intro k prev
    rfl
  | succ m ihm =>
    intro k prev
    rw [List.range'_succ, List.flatMap_cons, List.map_cons]
    show bytesToPixels .rgba prev
      (17 * k % 256 :: 17 * k % 256 :: 17 * k % 256 :: 17 * k % 256 ::
        (List.range' (k + 1) m).flatMap (fun i => List.replicate 4 (17 * i % 256))) = _
    simp only [bytesToPixels]
    rw [ihm (k + 1) ⟨17 * k % 256, 17 * k % 256, 17 * k % 256, 17 * k % 256⟩]
    rfl

/-- Length of the raw byte family: four bytes per pixel. -/
theorem c5_flatMap_length : ∀ (m k : Nat),
    ((List.range' k m).flatMap (fun i => List.replicate 4 (17 * i % 256))).length = 4 * m := by
  intro m
  induction m with
  | zero =>
    intro k
    rfl
  | succ m ihm =>
    intro k
    rw [List.range'_succ, List.flatMap_cons, List.length_append, List.length_replicate,
      ihm (k + 1)]
    omega

theorem c5data_length (n : Nat) : (c5data n).length = 4 * n := by
  unfold c5data
  rw [List.range_eq_range']
  exact c5_flatMap_length n 0

theorem c5_pixels (n : Nat) :
    bytesToPixels .rgba DEFAULT_PREV_PIXEL (c5data n) = (List.range n).map c5pix := by
  unfold c5data
  rw [List.range_eq_range']
  exact c5_bytesToPixels n 0 DEFAULT_PREV_PIXEL

/-! ## The claims -/

/-- C1: the RGBA round-trip claim fails on the code as written.  For the
12-byte RGBA input of three `[0,0,0,255]` pixels at width 3,
`verify_and_calculate_dims` computes `total_pixels = 12 / 3 = 4`, so the
encoder's final-pixel run flush (`pixel_idx + 1 == total_pixels`) never fires
and the three-pixel run is silently dropped: the body is empty and decoding
the output returns twelve zero bytes, not the original pixels. -/
theorem C1_rgba_roundtrip_fails :
    ∃ s, encode [0, 0, 0, 255, 0, 0, 0, 255, 0, 0, 0, 255] 3 ChannelCount.rgba = some s ∧
      decode s ChannelCount.rgba = .ok (List.replicate 12 0, 3, 1) ∧
      (List.replicate 12 0 : List Nat) ≠ [0, 0, 0, 255, 0, 0, 0, 255, 0, 0, 0, 255] :=
  ⟨[113, 111, 105, 102, 3, 0, 1, 0, 4, 0, 0, 0, 0, 0, 0, 0], by decide, by rfl, by decide⟩

/-- C2: the RGB round-trip holds.  For every RGB byte array of W·H pixels
(W, H ∈ [1, 2^16)), encoding succeeds, decoding the stream with channel
count 3 returns exactly the original bytes with (W, H), decoding it with
channel count 4 returns the same pixels serialized with an alpha byte, and
every pixel value the decoder tracks has alpha 255 throughout. -/
theorem C2_rgb_roundtrip (data : List Nat) (W H : Nat)
    (hlen : data.length = W * H * 3) (hW1 : 1 ≤ W) (hW2 : W ≤ 65535)
    (hH1 : 1 ≤ H) (hH2 : H ≤ 65535) (hdata : ∀ b ∈ data, b < 256) :
    ∃ s, encode data W ChannelCount.rgb = some s ∧
      decode s ChannelCount.rgb = .ok (data, W, H) ∧
      decode s ChannelCount.rgba =
        .ok ((bytesToPixels ChannelCount.rgb DEFAULT_PREV_PIXEL data).flatMap
          (emit ChannelCount.rgba), W, H) ∧
      ∀ p ∈ bytesToPixels ChannelCount.rgb DEFAULT_PREV_PIXEL data, p.a = 255 := by
  obtain ⟨s3, cD3, henc3, -, -, -, hdec3⟩ :=
    encode_decode_rgb .rgb data W H hlen hW1 hW2 hH1 hH2 hdata
  obtain ⟨s4, cD4, henc4, -, -, -, hdec4⟩ :=
    encode_decode_rgb .rgba data W H hlen hW1 hW2 hH1 hH2 hdata
  rw [henc3] at henc4
  have hs : s3 = s4 := Option.some.inj henc4
  refine ⟨s3, henc3, ?_, ?_,
    fun p hp => (bytesToPixels_rgb_ok data DEFAULT_PREV_PIXEL hdata rfl p hp).2⟩
  · rw [← bytesToPixels_rgb_flatMap data DEFAULT_PREV_PIXEL (by omega)]
    exact hdec3
  · rw [hs]
    exact hdec4

/-- C2 witness: the round-trip at the one-pixel image `[1, 2, 3]`. -/
theorem C2_rgb_roundtrip_witness :
    ∃ s, encode [1, 2, 3] 1 ChannelCount.rgb = some s ∧
      decode s ChannelCount.rgb = .ok ([1, 2, 3], 1, 1) ∧
      decode s ChannelCount.rgba =
        .ok ((bytesToPixels ChannelCount.rgb DEFAULT_PREV_PIXEL [1, 2, 3]).flatMap
          (emit ChannelCount.rgba), 1, 1) ∧
      ∀ p ∈ bytesToPixels ChannelCount.rgb DEFAULT_PREV_PIXEL [1, 2, 3], p.a = 255 :=
  C2_rgb_roundtrip [1, 2, 3] 1 1 (by decide) (by decide) (by decide) (by decide) (by decide)
    (by decide)

/-- C3: what the geometry check actually rejects.  `verify_and_calculate_dims`
fails exactly when the length is not a multiple of the channel count, the
width is zero (a division-by-zero panic), the length is not a multiple of the
width alone (not of width·C as the spec says), or the derived height or the
width exceeds 16 bits; on success it returns the width, the exact height
`len / (W·C)`, and `len / 3`. -/
theorem C3_geometry_check (len W : Nat) (C : ChannelCount) :
    (verify_and_calculate_dims len W C = none ↔
      (W = 0 ∨ len % C.toNat ≠ 0 ∨ len % W ≠ 0 ∨
        65535 < len / (W * C.toNat) ∨ 65535 < W)) ∧
    (∀ w h t, verify_and_calculate_dims len W C = some (w, h, t) →
      w = W ∧ h = len / (W * C.toNat) ∧ t = len / 3) := by
  have hval : verify_and_calculate_dims len W C =
      if len % C.toNat ≠ 0 then none
      else if W = 0 then none
      else if len % W ≠ 0 then none
      else if 65535 < len / (W * C.toNat) then none
      else if 65535 < W then none
      else some (W, len / (W * C.toNat), len / 3) := rfl
  rw [hval]
  by_cases h1 : len % C.toNat ≠ 0
  · rw [if_pos h1]
    exact ⟨⟨fun _ => Or.inr (Or.inl h1), fun _ => rfl⟩, fun w h t hc => Option.noConfusion hc⟩
  · rw [if_neg h1]
    by_cases h2 : W = 0
    · rw [if_pos h2]
      exact ⟨⟨fun _ => Or.inl h2, fun _ => rfl⟩, fun w h t hc => Option.noConfusion hc⟩
    · rw [if_neg h2]
      by_cases h3 : len % W ≠ 0
      · rw [if_pos h3]
        exact ⟨⟨fun _ => Or.inr (Or.inr (Or.inl h3)), fun _ => rfl⟩,
          fun w h t hc => Option.noConfusion hc⟩
      · rw [if_neg h3]
        by_cases h4 : 65535 < len / (W * C.toNat)
        · rw [if_pos h4]
          exact ⟨⟨fun _ => Or.inr (Or.inr (Or.inr (Or.inl h4))), fun _ => rfl⟩,
            fun w h t hc => Option.noConfusion hc⟩
        · rw [if_neg h4]
          by_cases h5 : 65535 < W
          · rw [if_pos h5]
            exact ⟨⟨fun _ => Or.inr (Or.inr (Or.inr (Or.inr h5))), fun _ => rfl⟩,
              fun w h t hc => Option.noConfusion hc⟩
          · rw [if_neg h5]
            refine ⟨⟨fun hc => Option.noConfusion hc, fun hd => ?_⟩, ?_⟩
            · rcases hd with h | h | h | h | h
              · exact absurd h h2
              · exact absurd h h1
              · exact absurd h h3
              · exact absurd h h4
              · exact absurd h h5
            · intro w h t hc
              rw [Option.some.injEq, Prod.mk.injEq, Prod.mk.injEq] at hc
              exact ⟨hc.1.symm, hc.2.1.symm, hc.2.2.symm⟩

/-- C3 counterexample: a 12-byte RGBA input at width 6 is accepted although
12 is not a multiple of width·C = 24, contradicting the claimed reject
condition (only `len % width` is checked, and the height silently becomes 0). -/
theorem C3_width_multiple_not_required :
    encode (List.replicate 12 0) 6 ChannelCount.rgba ≠ none ∧
    (List.replicate 12 0 : List Nat).length % (6 * ChannelCount.rgba.toNat) ≠ 0 :=
  ⟨by decide, by decide⟩

/-- C4: what is true of the caches.  Across an RGB round-trip the decoder's
final cache agrees with the encoder's on every slot the encoder wrote
(`CacheRel` also allows the decoder's extra post-`RUN`/`INDEX` updates to have
filled encoder-untouched slots with `DEFAULT_PREV_PIXEL`), and the decoder
consumes the stream reproducing the pixels with that cache. -/
theorem C4_cache_coherence (data : List Nat) (W H : Nat)
    (hlen : data.length = W * H * 3) (hW1 : 1 ≤ W) (hW2 : W ≤ 65535)
    (hH1 : 1 ≤ H) (hH2 : H ≤ 65535) (hdata : ∀ b ∈ data, b < 256) :
    ∃ cD' : Nat → Rgba,
      CacheRel (encLoop (W * H) 0 0 DEFAULT_PREV_PIXEL zeroCache
        (bytesToPixels ChannelCount.rgb DEFAULT_PREV_PIXEL data)).2 cD' ∧
      decodeLoop ChannelCount.rgb (W * H * ChannelCount.rgb.toNat + 1)
          (W * H * ChannelCount.rgb.toNat)
          ((encLoop (W * H) 0 0 DEFAULT_PREV_PIXEL zeroCache
            (bytesToPixels ChannelCount.rgb DEFAULT_PREV_PIXEL data)).1 ++
            List.replicate QOI_PADDING 0)
          ⟨0, DEFAULT_PREV_PIXEL, zeroCache⟩ [] =
        .ok ((bytesToPixels ChannelCount.rgb DEFAULT_PREV_PIXEL data).flatMap
            (emit ChannelCount.rgb),
          ⟨0, (bytesToPixels ChannelCount.rgb DEFAULT_PREV_PIXEL data).getLastD
            DEFAULT_PREV_PIXEL, cD'⟩,
          List.replicate QOI_PADDING 0) := by
  obtain ⟨s, cD', -, -, hrel, hloop, -⟩ :=
    encode_decode_rgb .rgb data W H hlen hW1 hW2 hH1 hH2 hdata
  exact ⟨cD', hrel, hloop⟩

/-- C4 witness: the cache relation at the one-pixel image `[1, 2, 3]`. -/
theorem C4_cache_coherence_witness :
    ∃ cD' : Nat → Rgba,
      CacheRel (encLoop (1 * 1) 0 0 DEFAULT_PREV_PIXEL zeroCache
        (bytesToPixels ChannelCount.rgb DEFAULT_PREV_PIXEL [1, 2, 3])).2 cD' ∧
      decodeLoop ChannelCount.rgb (1 * 1 * ChannelCount.rgb.toNat + 1)
          (1 * 1 * ChannelCount.rgb.toNat)
          ((encLoop (1 * 1) 0 0 DEFAULT_PREV_PIXEL zeroCache
            (bytesToPixels ChannelCount.rgb DEFAULT_PREV_PIXEL [1, 2, 3])).1 ++
            List.replicate QOI_PADDING 0)
          ⟨0, DEFAULT_PREV_PIXEL, zeroCache⟩ [] =
        .ok ((bytesToPixels ChannelCount.rgb DEFAULT_PREV_PIXEL [1, 2, 3]).flatMap
            (emit ChannelCount.rgb),
          ⟨0, (bytesToPixels ChannelCount.rgb DEFAULT_PREV_PIXEL [1, 2, 3]).getLastD
            DEFAULT_PREV_PIXEL, cD'⟩,
          List.replicate QOI_PADDING 0) :=
  C4_cache_coherence [1, 2, 3] 1 1 (by decide) (by decide) (by decide) (by decide) (by decide)
    (by decide)

/-- C4 counterexample: the caches are not identical at instruction boundaries.
Encoding two black RGB pixels emits a single `RUN_8` instruction and leaves the
encoder's cache all-zero, but after dispatching that instruction the decoder
stores its pixel `[0,0,0,255]` into slot `hash % 64 = 63` — the source updates
the cache after every dispatched instruction, `RUN`/`INDEX` included. -/
theorem C4_cache_update_after_run :
    encode [0, 0, 0, 0, 0, 0] 2 ChannelCount.rgb =
      some (MAGIC ++ le16 2 ++ le16 1 ++ le32 5 ++ ([0x41] ++ List.replicate 4 0)) ∧
    (encLoop 2 0 0 DEFAULT_PREV_PIXEL zeroCache
      (bytesToPixels ChannelCount.rgb DEFAULT_PREV_PIXEL [0, 0, 0, 0, 0, 0])).2 63 = zeroPixel ∧
    (decodeLoop ChannelCount.rgb 7 6 ([0x41] ++ List.replicate 4 0)
        ⟨0, DEFAULT_PREV_PIXEL, zeroCache⟩ []).toOption.map (fun r => r.2.1.cache 63) =
      some DEFAULT_PREV_PIXEL ∧
    ¬zeroPixel = DEFAULT_PREV_PIXEL :=
  ⟨by decide, by decide, by decide, by decide⟩

/-- C5: the stream layout as the code produces it.  Every accepted input
yields magic ∥ width (LE16) ∥ height (LE16) ∥ a 4-byte LE field holding
`instruction bytes + 4` as a `u32` — i.e. reading those bytes back gives that
count mod 2^32, not the count itself — followed by the instruction bytes and
four zero padding bytes. -/
theorem C5_stream_format (data : List Nat) (W : Nat) (C : ChannelCount) (w h total : Nat)
    (hv : verify_and_calculate_dims data.length W C = some (w, h, total)) :
    ∃ body : List Nat,
      encode data W C = some (MAGIC ++ le16 w ++ le16 h ++
        le32 (body.length + QOI_PADDING) ++ (body ++ List.replicate QOI_PADDING 0)) ∧
      readLe32 (le32 (body.length + QOI_PADDING)) = (body.length + QOI_PADDING) % 4294967296 := by
  have henc := encode_eq data W C w h total hv
  rw [List.length_append, List.length_replicate] at henc
  exact ⟨_, henc, readLe32_le32 _⟩

/-- C5 witness: the layout at the one-pixel image `[0, 0, 0]`. -/
theorem C5_stream_format_witness :
    ∃ body : List Nat,
      encode [0, 0, 0] 1 ChannelCount.rgb = some (MAGIC ++ le16 1 ++ le16 1 ++
        le32 (body.length + QOI_PADDING) ++ (body ++ List.replicate QOI_PADDING 0)) ∧
      readLe32 (le32 (body.length + QOI_PADDING)) = (body.length + QOI_PADDING) % 4294967296 :=
  C5_stream_format [0, 0, 0] 1 ChannelCount.rgb 1 1 1 (by decide)

/-- C5 counterexample: the size field does not always equal the image-data
byte count.  The 65535×13108 RGBA image whose every pixel moves all four
channels by 17 mod 256 is accepted and costs five instruction bytes per pixel
after the first: `4295163900 ≥ 2^32` image-data bytes, so the stored `u32`
field reads back as `196604`, not the true count. -/
theorem C5_size_field_truncates :
    ∃ body : List Nat,
      encode (c5data 859032780) 65535 ChannelCount.rgba =
        some (MAGIC ++ le16 65535 ++ le16 13108 ++ le32 (body.length + QOI_PADDING) ++
          (body ++ List.replicate QOI_PADDING 0)) ∧
      body.length + QOI_PADDING = 5 * 859032780 ∧
      readLe32 (le32 (body.length + QOI_PADDING)) ≠ body.length + QOI_PADDING := by
  have hlen : (c5data 859032780).length = 3436131120 := by
    rw [c5data_length]
  have hv : verify_and_calculate_dims (c5data 859032780).length 65535 ChannelCount.rgba =
      some (65535, 13108, 1145377040) := by
    rw [hlen]
    decide
  have henc := encode_eq (c5data 859032780) 65535 ChannelCount.rgba 65535 13108 1145377040 hv
  rw [List.length_append, List.length_replicate] at henc
  have hbl : ((encLoop 1145377040 0 0 DEFAULT_PREV_PIXEL zeroCache
      (bytesToPixels ChannelCount.rgba DEFAULT_PREV_PIXEL (c5data 859032780))).1).length
      = 1 + 5 * 859032779 := by
    rw [c5_pixels, show (859032780 : Nat) = 859032779 + 1 from by norm_num]
    exact c5_body_len 1145377040 859032779
  refine ⟨_, henc, ?_, ?_⟩
  · rw [hbl]
    decide
  · rw [hbl]
    decide

/-- C6: the header is 12 bytes, not 14.  Every encoder output is
magic ∥ LE16 width ∥ LE16 height ∥ a 4-byte size field (bytes 8–11, value
`image-data length mod 2^32`) followed by the image data, and `decode_header`
consumes exactly those 12 bytes. -/
theorem C6_header_layout (data : List Nat) (W : Nat) (C : ChannelCount) (w h total : Nat)
    (hv : verify_and_calculate_dims data.length W C = some (w, h, total))
    (hw0 : 0 < w) (hh0 : 0 < h) (hw : w < 65536) (hh : h < 65536) :
    ∃ s img : List Nat,
      encode data W C = some s ∧
      s = MAGIC ++ le16 w ++ le16 h ++ le32 img.length ++ img ∧
      s.length = 12 + img.length ∧
      decode_header s = .ok ((w, h, img.length % 4294967296), img) := by
  set img := (encLoop total 0 0 DEFAULT_PREV_PIXEL zeroCache
    (bytesToPixels C DEFAULT_PREV_PIXEL data)).1 ++ List.replicate QOI_PADDING 0 with himg
  have henc := encode_eq data W C w h total hv
  refine ⟨MAGIC ++ le16 w ++ le16 h ++ le32 img.length ++ img, img, henc, rfl, ?_, ?_⟩
  · simp only [MAGIC, le16, le32, List.length_append, List.length_cons, List.length_nil]
  · rw [decode_header_stream w h img.length img hw hh hw0 hh0]
    have hdig : img.length % 256 + 256 * (img.length / 256 % 256)
        + 65536 * (img.length / 65536 % 256) + 16777216 * (img.length / 16777216 % 256)
        = img.length % 4294967296 := by
      omega
    rw [hdig]

/-- C6 witness: the 12-byte header at the one-pixel image `[1, 2, 3]`. -/
theorem C6_header_layout_witness :
    ∃ s img : List Nat,
      encode [1, 2, 3] 1 ChannelCount.rgb = some s ∧
      s = MAGIC ++ le16 1 ++ le16 1 ++ le32 img.length ++ img ∧
      s.length = 12 + img.length ∧
      decode_header s = .ok ((1, 1, img.length % 4294967296), img) :=
  C6_header_layout [1, 2, 3] 1 ChannelCount.rgb 1 1 1 (by decide) (by decide) (by decide)
    (by decide) (by decide)

/-- C6 counterexample: the header is not 14 bytes.  For the one-pixel image
`[1, 2, 3]` the 18-byte output carries the size field at bytes 8–11 (value
`18 − 12 = 6`), bytes 12–15 read back `39632 ≠ 18 − 14`, and `decode_header`
returns the remainder starting at byte 12. -/
theorem C6_no_14_byte_header :
    ∃ s : List Nat, encode [1, 2, 3] 1 ChannelCount.rgb = some s ∧
      s.length = 18 ∧
      readLe32 (s.drop 12) ≠ s.length - 14 ∧
      readLe32 (s.drop 8) = s.length - 12 ∧
      decode_header s = .ok ((1, 1, 6), s.drop 12) :=
  ⟨[113, 111, 105, 102, 1, 0, 1, 0, 6, 0, 0, 0, 208, 154, 0, 0, 0, 0],
    by decide, by decide, by decide, by decide, by rfl⟩

/-- C7: DIFF_24 pack/unpack round-trip.  For deltas in [−15, 16] the decoder's
extraction formulas applied to the three bytes the encoder packs advance every
channel by exactly the encoded delta (mod 256). -/
theorem C7_diff24_roundtrip (dr dg db da : Int)
    (hr1 : -15 ≤ dr) (hr2 : dr ≤ 16) (hg1 : -15 ≤ dg) (hg2 : dg ≤ 16)
    (hb1 : -15 ≤ db) (hb2 : db ≤ 16) (ha1 : -15 ≤ da) (ha2 : da ≤ 16)
    (st : DecSt) (hpx : PixelOK st.px) (bs : List Nat) :
    ∃ b1 b2 b3 : Nat, diff24Bytes dr dg db da = [b1, b2, b3] ∧
      dispatch st b1 (b2 :: b3 :: bs) =
        .ok (st.run, ⟨wrapAdd st.px.r dr, wrapAdd st.px.g dg,
                      wrapAdd st.px.b db, wrapAdd st.px.a da⟩, bs) := by
  obtain ⟨hpr, hpg, hpb, hpa⟩ := hpx
  have hR : (dr + 15).toNat < 32 := by omega
  have hG : (dg + 15).toNat < 32 := by omega
  have hB : (db + 15).toNat < 32 := by omega
  have hA : (da + 15).toNat < 32 := by omega
  have key : ∀ (p : Nat) (v : Int), p < 256 → -15 ≤ v → v ≤ 16 →
      u8add p (u8sub (v + 15).toNat 15) = wrapAdd p v := by
    intro p v hp h1 h2
    unfold u8add u8sub wrapAdd
    omega
  refine ⟨_, _, _, rfl, ?_⟩
  rw [dispatch_diff24 st ((dr + 15).toNat) ((dg + 15).toNat) ((db + 15).toNat)
    ((da + 15).toNat) hR hG hB hA bs]
  rw [key st.px.r dr hpr hr1 hr2, key st.px.g dg hpg hg1 hg2,
    key st.px.b db hpb hb1 hb2, key st.px.a da hpa ha1 ha2]

/-- C7 witness: the round-trip at deltas (16, −15, 0, 1) from pixel
(10, 20, 30, 255). -/
theorem C7_diff24_roundtrip_witness :
    ∃ b1 b2 b3 : Nat, diff24Bytes 16 (-15) 0 1 = [b1, b2, b3] ∧
      dispatch ⟨0, ⟨10, 20, 30, 255⟩, zeroCache⟩ b1 (b2 :: b3 :: []) =
        .ok (0, ⟨wrapAdd 10 16, wrapAdd 20 (-15), wrapAdd 30 0, wrapAdd 255 1⟩, []) :=
  C7_diff24_roundtrip 16 (-15) 0 1 (by decide) (by decide) (by decide) (by decide)
    (by decide) (by decide) (by decide) (by decide)
    ⟨0, ⟨10, 20, 30, 255⟩, zeroCache⟩ (by unfold PixelOK; decide) []

/-- C8: header error behaviour.  On any stream of at least 12 bytes, parsing
fails with a format error exactly when the magic is wrong or the little-endian
width or height is zero; otherwise it succeeds and returns the little-endian
width, height and size field with the remainder of the stream. -/
theorem C8_header_errors (m0 m1 m2 m3 w0 w1 h0 h1 s0 s1 s2 s3 : Nat) (rest : List Nat) :
    (decode_header (m0 :: m1 :: m2 :: m3 :: w0 :: w1 :: h0 :: h1 ::
        s0 :: s1 :: s2 :: s3 :: rest) = .error .formatErr ↔
      ([m0, m1, m2, m3] ≠ MAGIC ∨ w0 + 256 * w1 = 0 ∨ h0 + 256 * h1 = 0)) ∧
    (¬([m0, m1, m2, m3] ≠ MAGIC ∨ w0 + 256 * w1 = 0 ∨ h0 + 256 * h1 = 0) →
      decode_header (m0 :: m1 :: m2 :: m3 :: w0 :: w1 :: h0 :: h1 ::
        s0 :: s1 :: s2 :: s3 :: rest) =
        .ok ((w0 + 256 * w1, h0 + 256 * h1,
          s0 + 256 * s1 + 65536 * s2 + 16777216 * s3), rest)) := by
  have hval : decode_header (m0 :: m1 :: m2 :: m3 :: w0 :: w1 :: h0 :: h1 ::
      s0 :: s1 :: s2 :: s3 :: rest) =
      if [m0, m1, m2, m3] ≠ MAGIC then .error .formatErr
      else if w0 + 256 * w1 = 0 then .error .formatErr
      else if h0 + 256 * h1 = 0 then .error .formatErr
      else .ok ((w0 + 256 * w1, h0 + 256 * h1,
        s0 + 256 * s1 + 65536 * s2 + 16777216 * s3), rest) := rfl
  rw [hval]
  by_cases hm : [m0, m1, m2, m3] ≠ MAGIC
  · rw [if_pos hm]
    exact ⟨⟨fun _ => Or.inl hm, fun _ => rfl⟩, fun hcon => absurd (Or.inl hm) hcon⟩
  · rw [if_neg hm]
    by_cases hw : w0 + 256 * w1 = 0
    · rw [if_pos hw]
      exact ⟨⟨fun _ => Or.inr (Or.inl hw), fun _ => rfl⟩,
        fun hcon => absurd (Or.inr (Or.inl hw)) hcon⟩
    · rw [if_neg hw]
      by_cases hh : h0 + 256 * h1 = 0
      · rw [if_pos hh]
        exact ⟨⟨fun _ => Or.inr (Or.inr hh), fun _ => rfl⟩,
          fun hcon => absurd (Or.inr (Or.inr hh)) hcon⟩
      · rw [if_neg hh]
        refine ⟨⟨fun hc => Except.noConfusion hc, fun hd => ?_⟩, fun _ => rfl⟩
        rcases hd with h | h | h
        · exact absurd h hm
        · exact absurd h hw
        · exact absurd h hh

/-- C9: a successful decode returns exactly W·H·C bytes: the loop appends
`C` bytes per emitted pixel and stops at the first length `≥ W·H·C`, which it
hits exactly. -/
theorem C9_decode_length (source : List Nat) (ch : ChannelCount) (out : List Nat) (w h : Nat)
    (hok : decode source ch = .ok (out, w, h)) :
    out.length = w * h * ch.toNat := by
  unfold decode at hok
  cases hh : decode_header source with
  | error e =>
    rw [hh] at hok
    exact Except.noConfusion hok
  | ok v =>
    obtain ⟨⟨width, height, sz⟩, rest⟩ := v
    rw [hh] at hok
    dsimp only at hok
    cases hl : decodeLoop ch (width * height * ch.toNat + 1) (width * height * ch.toNat)
        rest ⟨0, DEFAULT_PREV_PIXEL, zeroCache⟩ [] with
    | error e =>
      rw [hl] at hok
      exact Except.noConfusion hok
    | ok r =>
      obtain ⟨outL, stL, restL⟩ := r
      rw [hl] at hok
      rw [Except.ok.injEq, Prod.mk.injEq, Prod.mk.injEq] at hok
      obtain ⟨e1, e2, e3⟩ := hok
      rw [← e1, ← e2, ← e3]
      exact decodeLoop_ok_length ch _ hl ⟨0, rfl⟩ ⟨width * height, by ring⟩ (Nat.zero_le _)

/-- C9 witness: a one-pixel RGB stream decodes to exactly 3 bytes. -/
theorem C9_decode_length_witness :
    ([0, 0, 0] : List Nat).length = 1 * 1 * ChannelCount.rgb.toNat :=
  C9_decode_length (MAGIC ++ [1, 0, 1, 0, 5, 0, 0, 0, 0x40, 0, 0, 0, 0]) ChannelCount.rgb
    [0, 0, 0] 1 1 (by rfl)

/-- C10: the dispatch chain is total — every instruction byte satisfies
exactly one of the seven mask tests, in the order checked. -/
theorem C10_dispatch_total : ∀ b < 256, (dispatchTests b).count true = 1 := by decide

/-- C10 witness: byte 0x7F takes exactly one branch. -/
theorem C10_dispatch_total_witness : (dispatchTests 127).count true = 1 :=
  C10_dispatch_total 127 (by decide)

end Qoi
